import Mathlib

/-!
# Verification of the packrat dependency-update tool

A shallow embedding of the core of `packrat` (a Rust CLI that checks a
`package.json` manifest against the npm registry and rewrites chosen
dependency versions), together with proofs about its behaviour.

Source files embedded here:
* `src/main.rs` — the one-shot batch/report variant (version comparison and
  classification into patch / minor / major / pre-1.0 buckets).
* `src/application.rs` — the interactive variant: selection state machine
  (cursor movement, table switching, toggling) and the event-loop handling of
  fetch results.
* `src/project.rs` and `src/package.rs` — the manifest model: a generic JSON
  tree with JSON-pointer based mutation of dependency entries, and
  pretty-printed serialization back to disk.

Machine integers (`usize`) are modelled as `Nat` with explicit wrapping
modulo `2 ^ 64` at the one subtraction where overflow can occur. Fallible
operations return `Option` / `Except`; a `panic!`/`todo!`/`unwrap` failure is
modelled as `Option.none` / `Except.error`.
-/

/-! ## Versions and the batch classification (`src/main.rs`)

`node_semver::Version` is an external crate; it is modelled at its boundary:
a version is a numeric major/minor/patch triple, and parsing succeeds exactly
on plain dotted digit triples such as `"1.2.3"` (the shapes the manifest data
model of the spec uses). Anything else fails to parse, which in the source
turns into an `unwrap` panic. -/

structure Version where
  major : Nat
  minor : Nat
  patch : Nat
deriving DecidableEq

instance {ε α : Type} [DecidableEq ε] [DecidableEq α] : DecidableEq (Except ε α) :=
  fun a b =>
    match a, b with
    | .ok x, .ok y =>
      if h : x = y then .isTrue (by rw [h]) else .isFalse (by simp [h])
    | .error x, .error y =>
      if h : x = y then .isTrue (by rw [h]) else .isFalse (by simp [h])
    | .ok _, .error _ => .isFalse (by simp)
    | .error _, .ok _ => .isFalse (by simp)

/-- Split a character list on a separator character (used both for version
strings at `'.'` and for JSON pointers at `'/'`). -/
def splitOnCharAux (sep : Char) : List Char → List Char → List (List Char)
  | [], acc => [acc.reverse]
  | c :: rest, acc =>
    if c = sep then acc.reverse :: splitOnCharAux sep rest []
    else splitOnCharAux sep rest (c :: acc)

def splitOnChar (sep : Char) (cs : List Char) : List (List Char) :=
  splitOnCharAux sep cs []

/-- Numeric value of a digit string, most significant digit first. -/
def digitsVal (cs : List Char) : Nat :=
  cs.foldl (fun a c => 10 * a + (c.toNat - 48)) 0

def parseVersionPart (cs : List Char) : Option Nat :=
  if cs.isEmpty then none
  else if cs.all Char.isDigit then some (digitsVal cs)
  else none

/-- Modelled at the boundary of the external `node_semver` crate: parse a
plain `major.minor.patch` digit triple; reject every other string. -/
def parseVersion (s : String) : Option Version :=
  match (splitOnChar '.' s.data).map parseVersionPart with
  | [some a, some b, some c] => some ⟨a, b, c⟩
  | _ => none

/-- `raw.replace('^', "")` from `src/main.rs` line 63: removes every caret. -/
def stripCarets (s : String) : String :=
  ⟨s.data.filter (fun c => c ≠ '^')⟩

/-- The four report buckets of the batch variant (`src/text.rs`). -/
inductive VersionSection where
  | patch
  | minor
  | major
  | preV1
deriving DecidableEq

/-- The per-dependency comparison and classification of `src/main.rs`
lines 56–105: compare the caret-stripped current version string with the
fetched latest version string; when they are unequal, parse both (an
unparsable version is an `unwrap` panic, modelled as `.error`) and classify
into the first matching bucket. -/
def classifyUpdate (raw_current latest_version : String) :
    Except Unit (Option VersionSection) :=
  let current_version := stripCarets raw_current
  if current_version = latest_version then .ok none
  else
    match parseVersion current_version, parseVersion latest_version with
    | some c, some l =>
      .ok (if l.major = 0 then some .preV1
        else if l.major > c.major then some .major
        else if l.minor > c.minor then some .minor
        else if l.patch > c.patch then some .patch
        else none)
    | _, _ => .error ()

/-! ## Registry metadata and fetch-result handling -/

/-- `src/registry.rs`: the `dist-tags` object of the abbreviated registry
response. -/
structure LatestVersion where
  latest : String
deriving DecidableEq

/-- `src/registry.rs`: registry metadata of an npm package. -/
structure Metadata where
  name : String
  dist_tags : LatestVersion
deriving DecidableEq

/-- `HashMap::insert` on the interactive variant's `fetched_packages` map,
modelled as overwrite-or-append on an association list. -/
def insertFetched : List (String × String) → String → String → List (String × String)
  | [], k, v => [(k, v)]
  | (k', v') :: rest, k, v =>
    if k' = k then (k', v) :: rest else (k', v') :: insertFetched rest k v

/-- The fetch-result arm of the interactive event loop
(`src/application.rs` lines 300–310): an `Ok` result is merged into
`fetched_packages`; the `Err` arm is `todo!()`, i.e. a panic that aborts the
event loop, modelled as `none`. -/
def handleFetchResult (res : Except Unit Metadata)
    (fetched : List (String × String)) : Option (List (String × String)) :=
  match res with
  | .ok p => some (insertFetched fetched p.name p.dist_tags.latest)
  | .error _ => none

/-- The inner metadata scan of the batch variant (`src/main.rs` lines 49–112)
for one dependency `(package_name, raw_current)`: walk the collected fetch
results in completion order; skip `Ok` results for other packages; classify
on a name match (possibly more than once if the name recurs); on an `Err`
result, log and `break` out of the scan, keeping only the buckets already
produced. `.error` models the version-parse `unwrap` panic. -/
def classifyDep (package_name raw_current : String) :
    List (Except Unit Metadata) → Except Unit (List VersionSection)
  | [] => .ok []
  | .error _ :: _ => .ok []
  | .ok p :: rest =>
    if p.name ≠ package_name then classifyDep package_name raw_current rest
    else
      match classifyUpdate raw_current p.dist_tags.latest with
      | .error _ => .error ()
      | .ok none => classifyDep package_name raw_current rest
      | .ok (some b) => (classifyDep package_name raw_current rest).map (b :: ·)

/-! ## Manifest file paths (`src/application.rs` lines 49–56 and
`src/project.rs` lines 72–78)

Paths are modelled as lists of components. A relative path such as
`"./package.json"` is resolved by the operating system against the current
working directory. -/

/-- The path `Application::new` loads the manifest from: the optional
directory argument (or else the current working directory) with
`"package.json"` pushed onto it. -/
def manifestLoadPath (cwd : List String) (directory : Option (List String)) :
    List String :=
  (match directory with
   | some custom_directory => custom_directory
   | none => cwd) ++ ["package.json"]

/-- The path `Project::write_to_file` writes to: `File::create("./package.json")`,
i.e. `package.json` in the current working directory, regardless of where the
manifest was loaded from. -/
def projectWritePath (cwd : List String) : List String :=
  cwd ++ ["package.json"]

/-! ## The selection state machine (`src/application.rs`)

`tui::widgets::TableState` is modelled by its `selected` index
(`Option Nat`); the two `HashSet<usize>` toggle sets are modelled as
`Finset Nat`. `usize` subtraction wraps modulo `2 ^ 64` (release-build
semantics; a debug build would abort at the same spot, which no reachable
state of the claims exercises). -/

inductive DependencyTable where
  | Runtime
  | Dev
deriving DecidableEq

structure AppState where
  dependencies_len : Nat
  dev_dependencies_len : Nat
  active_table : DependencyTable
  dependencies_table_state : Option Nat
  dev_dependencies_table_state : Option Nat
  update_index : Finset Nat
  dev_update_index : Finset Nat
deriving DecidableEq

/-- `Application::new` lines 67–93: start on the runtime table with unset
cursors and empty toggle sets; then select row 0 of the dev table and make it
active if it is non-empty; then select row 0 of the runtime table and make it
active if it is non-empty. -/
def initState (dependencies_len dev_dependencies_len : Nat) : AppState :=
  let app : AppState :=
    { dependencies_len := dependencies_len
      dev_dependencies_len := dev_dependencies_len
      active_table := .Runtime
      dependencies_table_state := none
      dev_dependencies_table_state := none
      update_index := ∅
      dev_update_index := ∅ }
  let app :=
    if dev_dependencies_len ≠ 0 then
      { app with dev_dependencies_table_state := some 0, active_table := .Dev }
    else app
  if dependencies_len ≠ 0 then
    { app with dependencies_table_state := some 0, active_table := .Runtime }
  else app

def USIZE : Nat := 2 ^ 64

/-- Wrapping `usize` decrement: `n - 1` modulo `2 ^ 64`. -/
def usizeDec (n : Nat) : Nat := (n + (USIZE - 1)) % USIZE

/-- `Application::switch_table` lines 97–106. -/
def switchTable (s : AppState) : AppState :=
  if s.dependencies_len = 0 ∨ s.dev_dependencies_len = 0 then s
  else
    match s.active_table with
    | .Runtime => { s with active_table := .Dev }
    | .Dev => { s with active_table := .Runtime }

/-- The new cursor computed by `Application::next` lines 120–129. -/
def nextOn (cursor : Option Nat) (len : Nat) : Nat :=
  match cursor with
  | some i => if i ≥ usizeDec len then 0 else i + 1
  | none => 0

/-- `Application::next` lines 108–132. -/
def next (s : AppState) : AppState :=
  match s.active_table with
  | .Runtime =>
    let i := nextOn s.dependencies_table_state s.dependencies_len
    { s with dependencies_table_state := some i }
  | .Dev =>
    let i := nextOn s.dev_dependencies_table_state s.dev_dependencies_len
    { s with dev_dependencies_table_state := some i }

/-- The new cursor computed by `Application::previous` lines 146–155. -/
def previousOn (cursor : Option Nat) (len : Nat) : Nat :=
  match cursor with
  | some i => if i = 0 then usizeDec len else i - 1
  | none => 0

/-- `Application::previous` lines 134–158. -/
def previous (s : AppState) : AppState :=
  match s.active_table with
  | .Runtime =>
    let i := previousOn s.dependencies_table_state s.dependencies_len
    { s with dependencies_table_state := some i }
  | .Dev =>
    let i := previousOn s.dev_dependencies_table_state s.dev_dependencies_len
    { s with dev_dependencies_table_state := some i }

/-- `Application::toggle_update` lines 160–183: flip membership of
`selected().unwrap_or(0)` in the active table's toggle set. -/
def toggleUpdate (s : AppState) : AppState :=
  match s.active_table with
  | .Runtime =>
    let selected_index := s.dependencies_table_state.getD 0
    if selected_index ∈ s.update_index then
      { s with update_index := s.update_index.erase selected_index }
    else
      { s with update_index := insert selected_index s.update_index }
  | .Dev =>
    let selected_index := s.dev_dependencies_table_state.getD 0
    if selected_index ∈ s.dev_update_index then
      { s with dev_update_index := s.dev_update_index.erase selected_index }
    else
      { s with dev_update_index := insert selected_index s.dev_update_index }

/-- The four selection-state transitions dispatched by the event loop. -/
inductive SelectionAction where
  | next
  | previous
  | switchTable
  | toggleUpdate
deriving DecidableEq

def stepAction : SelectionAction → AppState → AppState
  | .next, s => next s
  | .previous, s => previous s
  | .switchTable, s => switchTable s
  | .toggleUpdate, s => toggleUpdate s

def runActions (acts : List SelectionAction) (s : AppState) : AppState :=
  acts.foldl (fun s a => stepAction a s) s

/-! ## The manifest document tree (`serde_json::Value`)

The manifest is held as a generic JSON tree. Objects are insertion-ordered
sequences of key/value pairs; per the spec's data model, key order within
each mapping is preserved across load, mutation and write (the map's
ordering behaviour is fixed by the crate configuration, which sits outside
`src/`; the spec states order preservation). Numbers are modelled as
integers. The tree is a mutual inductive (values / array elements / object
fields) so that every function on it is structurally recursive and
computable. -/

mutual

inductive Json where
  | null
  | bool (b : Bool)
  | num (n : Int)
  | str (s : String)
  | arr (items : JsonList)
  | obj (fields : JsonFields)
deriving DecidableEq

inductive JsonList where
  | nil
  | cons (hd : Json) (tl : JsonList)
deriving DecidableEq

inductive JsonFields where
  | nil
  | cons (key : String) (val : Json) (tl : JsonFields)
deriving DecidableEq

end

mutual

def sizeJ : Json → Nat
  | .null | .bool _ | .num _ | .str _ => 1
  | .arr xs => 1 + sizeJL xs
  | .obj fs => 1 + sizeJF fs

def sizeJL : JsonList → Nat
  | .nil => 1
  | .cons x xs => 1 + sizeJ x + sizeJL xs

def sizeJF : JsonFields → Nat
  | .nil => 1
  | .cons _ v fs => 1 + sizeJ v + sizeJF fs

end

/-- `Map::get` on a JSON object: the value at the first matching key. -/
def objGet : JsonFields → String → Option Json
  | .nil, _ => none
  | .cons k v rest, key => if k = key then some v else objGet rest key

/-- Replace the value at the first matching key, keeping every key and the
key order unchanged; no insertion or removal. -/
def objSet : JsonFields → String → Json → JsonFields
  | .nil, _, _ => .nil
  | .cons k v rest, key, val =>
    if k = key then .cons k val rest else .cons k v (objSet rest key val)

/-- The keys of an object, in order. -/
def objKeys : JsonFields → List String
  | .nil => []
  | .cons k _ rest => k :: objKeys rest

def jlGet : JsonList → Nat → Option Json
  | .nil, _ => none
  | .cons x _, 0 => some x
  | .cons _ xs, n + 1 => jlGet xs n

def jlSet : JsonList → Nat → Json → JsonList
  | .nil, _, _ => .nil
  | .cons _ xs, 0, v => .cons v xs
  | .cons x xs, n + 1, v => .cons x (jlSet xs n v)

/-! ### JSON pointers (RFC 6901, as implemented by `serde_json`) -/

/-- `name.replace('/', "~1")` — the pointer-token escaping performed by
`Project::update_dependency_version` (`src/project.rs` line 53) and
`PackageJson::update_dependency_version` (`src/package.rs` line 54). Note
that `'~'` itself is not escaped to `"~0"`. -/
def escapePointerToken : List Char → List Char
  | [] => []
  | c :: rest =>
    if c = '/' then '~' :: '1' :: escapePointerToken rest
    else c :: escapePointerToken rest

/-- `str::replace` of the two-character pattern `[a, b]` by `r`: a single
left-to-right scan over non-overlapping matches. -/
def replacePair (a b : Char) (r : List Char) : List Char → List Char
  | [] => []
  | [c] => [c]
  | c :: d :: rest =>
    if c = a ∧ d = b then r ++ replacePair a b r rest
    else c :: replacePair a b r (d :: rest)

/-- Does the two-character pattern `[a, b]` occur in the list? -/
def hasPair (a b : Char) : List Char → Bool
  | [] => false
  | [_] => false
  | c :: d :: rest => (c = a && d = b) || hasPair a b (d :: rest)

/-- Pointer-token unescaping as performed by `serde_json`'s
`Value::pointer_mut`: first `"~1" → "/"`, then `"~0" → "~"`. -/
def unescapePointerToken (t : List Char) : List Char :=
  replacePair '~' '0' ['~'] (replacePair '~' '1' ['/'] t)

/-- `serde_json`'s `parse_index`: a pointer token addressing an array element
must be all digits with no leading zero (except `"0"` itself). -/
def parseArrayIndex (t : List Char) : Option Nat :=
  if t.isEmpty then none
  else if t.head? = some '0' ∧ t.length ≠ 1 then none
  else if t.all Char.isDigit then some (digitsVal t) else none

/-- Functional counterpart of navigating `Value::pointer_mut` down a list of
already-unescaped tokens and assigning `v` to the target: returns the updated
tree, or `none` when the pointer resolves to nothing (in which case the
source performs no assignment). -/
def setPointerTokens : Json → List (List Char) → Json → Option Json
  | _, [], v => some v
  | .obj fields, t :: rest, v =>
    (match objGet fields (String.mk t) with
     | some child =>
       (setPointerTokens child rest v).map (fun c => .obj (objSet fields (String.mk t) c))
     | none => none)
  | .arr items, t :: rest, v =>
    (match parseArrayIndex t with
     | some i =>
       (match jlGet items i with
        | some child => (setPointerTokens child rest v).map (fun c => .arr (jlSet items i c))
        | none => none)
     | none => none)
  | _, _ :: _, _ => none

/-- `Value::pointer_mut(p)` followed by assignment of `v`: an empty pointer
addresses the whole document; otherwise the pointer must start with `'/'` and
is split on `'/'`, each token unescaped, then navigated. -/
def pointerMutSet (j : Json) (p : List Char) (v : Json) : Option Json :=
  if p.isEmpty then some v
  else if p.head? = some '/' then
    setPointerTokens j (((splitOnChar '/' p).drop 1).map unescapePointerToken) v
  else none

/-! ### Serialization and parsing (`serde_json` at its boundary)

`Project::write_to_file` serializes the whole tree with
`serde_json::to_string_pretty` and loading parses with
`serde_json::from_str`. Both live in the external `serde_json` crate and are
modelled at their boundary: `prettyPrint` mirrors `to_string_pretty`'s
format (two-space indentation, `": "` after keys, the standard string
escapes), and `parseDoc` is a whitespace-insensitive JSON reader sufficient
for every document representable in the `Json` tree. -/

def spacesIndent (n : Nat) : List Char := List.replicate n ' '

def hexDigitChar (n : Nat) : Char :=
  if n < 10 then Char.ofNat (48 + n) else Char.ofNat (87 + n)

/-- One character of a JSON string, escaped as `serde_json` writes it:
`"` and `\` get a backslash, the five short control escapes are used when
available, any other control character becomes `\u00xy`, and everything else
is written as itself. -/
def escapeChar (c : Char) : List Char :=
  if c = '"' then ['\\', '"']
  else if c = '\\' then ['\\', '\\']
  else if c.toNat < 32 then
    if c.toNat = 8 then ['\\', 'b']
    else if c.toNat = 9 then ['\\', 't']
    else if c.toNat = 10 then ['\\', 'n']
    else if c.toNat = 12 then ['\\', 'f']
    else if c.toNat = 13 then ['\\', 'r']
    else ['\\', 'u', '0', '0', hexDigitChar (c.toNat / 16), hexDigitChar (c.toNat % 16)]
  else [c]

def escapeJsonChars : List Char → List Char
  | [] => []
  | c :: rest => escapeChar c ++ escapeJsonChars rest

/-- Decimal digits of a natural number, most significant first; the fuel is
always sufficient when it exceeds the number. -/
def natToCharsAux : Nat → Nat → List Char → List Char
  | 0, _, acc => acc
  | fuel + 1, n, acc =>
    let d := Char.ofNat (48 + n % 10)
    if n < 10 then d :: acc else natToCharsAux fuel (n / 10) (d :: acc)

def natToChars (n : Nat) : List Char := natToCharsAux (n + 1) n []

def intToChars (n : Int) : List Char :=
  if n < 0 then '-' :: natToChars n.natAbs else natToChars n.toNat

mutual

/-- `serde_json::to_string_pretty` at indentation level `ind`. -/
def prettyAt : Nat → Json → List Char
  | _, .null => ['n', 'u', 'l', 'l']
  | _, .bool true => ['t', 'r', 'u', 'e']
  | _, .bool false => ['f', 'a', 'l', 's', 'e']
  | _, .num n => intToChars n
  | _, .str s => '"' :: (escapeJsonChars s.data ++ ['"'])
  | _, .arr .nil => ['[', ']']
  | ind, .arr xs =>
    '[' :: '\n' :: (prettyItems ind xs ++ '\n' :: (spacesIndent ind ++ [']']))
  | _, .obj .nil => ['{', '}']
  | ind, .obj fs =>
    '{' :: '\n' :: (prettyFields ind fs ++ '\n' :: (spacesIndent ind ++ ['}']))

/-- The comma-and-newline separated elements of a non-empty array, each on
its own line at indentation `ind + 2`. -/
def prettyItems : Nat → JsonList → List Char
  | _, .nil => []
  | ind, .cons x .nil => spacesIndent (ind + 2) ++ prettyAt (ind + 2) x
  | ind, .cons x rest =>
    (spacesIndent (ind + 2) ++ prettyAt (ind + 2) x) ++ ',' :: '\n' :: prettyItems ind rest

/-- The comma-and-newline separated members of a non-empty object, each on
its own line at indentation `ind + 2`, as `"key": value`. -/
def prettyFields : Nat → JsonFields → List Char
  | _, .nil => []
  | ind, .cons k v .nil =>
    spacesIndent (ind + 2) ++
      ('"' :: (escapeJsonChars k.data ++ '"' :: ':' :: ' ' :: prettyAt (ind + 2) v))
  | ind, .cons k v rest =>
    (spacesIndent (ind + 2) ++
      ('"' :: (escapeJsonChars k.data ++ '"' :: ':' :: ' ' :: prettyAt (ind + 2) v))) ++
      ',' :: '\n' :: prettyFields ind rest

end

/-- `serde_json::to_string_pretty` of a whole document. -/
def prettyPrint (j : Json) : List Char := prettyAt 0 j

def isWsChar (c : Char) : Bool := c = ' ' || c = '\n' || c = '\t' || c = '\r'

def skipWs : List Char → List Char
  | [] => []
  | c :: rest => if isWsChar c then skipWs rest else c :: rest

def hexVal (c : Char) : Option Nat :=
  if '0' ≤ c ∧ c ≤ '9' then some (c.toNat - 48)
  else if 'a' ≤ c ∧ c ≤ 'f' then some (c.toNat - 87)
  else if 'A' ≤ c ∧ c ≤ 'F' then some (c.toNat - 55)
  else none

def unescapeChar (e : Char) : Option Char :=
  if e = '"' then some '"'
  else if e = '\\' then some '\\'
  else if e = '/' then some '/'
  else if e = 'b' then some (Char.ofNat 8)
  else if e = 't' then some (Char.ofNat 9)
  else if e = 'n' then some (Char.ofNat 10)
  else if e = 'f' then some (Char.ofNat 12)
  else if e = 'r' then some (Char.ofNat 13)
  else none

/-- Body of a JSON string after the opening quote: read until the closing
quote, decoding escapes. -/
def parseStrBody : List Char → Option (List Char × List Char)
  | [] => none
  | c :: rest =>
    if c = '"' then some ([], rest)
    else if c = '\\' then
      match rest with
      | [] => none
      | e :: rest2 =>
        if e = 'u' then
          match rest2 with
          | h1 :: h2 :: h3 :: h4 :: rest3 =>
            (match hexVal h1, hexVal h2, hexVal h3, hexVal h4 with
             | some a, some b, some c2, some d =>
               (parseStrBody rest3).map
                 (fun p => (Char.ofNat (((a * 16 + b) * 16 + c2) * 16 + d) :: p.1, p.2))
             | _, _, _, _ => none)
          | _ => none
        else
          (match unescapeChar e with
           | some c2 => (parseStrBody rest2).map (fun p => (c2 :: p.1, p.2))
           | none => none)
    else (parseStrBody rest).map (fun p => (c :: p.1, p.2))

def takeDigits : List Char → List Char × List Char
  | [] => ([], [])
  | c :: rest =>
    if c.isDigit then
      let p := takeDigits rest
      (c :: p.1, p.2)
    else ([], c :: rest)

def parseNatPart (cs : List Char) : Option (Nat × List Char) :=
  match takeDigits cs with
  | ([], _) => none
  | (ds, r) => some (digitsVal ds, r)

mutual

/-- Read one JSON value, skipping leading whitespace. -/
def parseVal : Nat → List Char → Option (Json × List Char)
  | 0, _ => none
  | fuel + 1, cs =>
    match skipWs cs with
    | [] => none
    | c :: rest =>
      if c = 'n' then
        match rest with
        | 'u' :: 'l' :: 'l' :: r => some (.null, r)
        | _ => none
      else if c = 't' then
        match rest with
        | 'r' :: 'u' :: 'e' :: r => some (.bool true, r)
        | _ => none
      else if c = 'f' then
        match rest with
        | 'a' :: 'l' :: 's' :: 'e' :: r => some (.bool false, r)
        | _ => none
      else if c = '"' then (parseStrBody rest).map (fun p => (.str ⟨p.1⟩, p.2))
      else if c = '[' then
        let r1 := skipWs rest
        if r1.head? = some ']' then some (.arr .nil, r1.tail)
        else (parseItems fuel r1).map (fun p => (.arr p.1, p.2))
      else if c = '{' then
        let r1 := skipWs rest
        if r1.head? = some '}' then some (.obj .nil, r1.tail)
        else (parseMembers fuel r1).map (fun p => (.obj p.1, p.2))
      else if c = '-' then (parseNatPart rest).map (fun p => (.num (-(p.1 : Int)), p.2))
      else (parseNatPart (c :: rest)).map (fun p => (.num (p.1 : Int), p.2))

/-- Read the elements of a non-empty array, up to and including `]`. -/
def parseItems : Nat → List Char → Option (JsonList × List Char)
  | 0, _ => none
  | fuel + 1, cs =>
    match parseVal fuel cs with
    | some (v, r) =>
      let r1 := skipWs r
      if r1.head? = some ',' then (parseItems fuel r1.tail).map (fun p => (.cons v p.1, p.2))
      else if r1.head? = some ']' then some (.cons v .nil, r1.tail)
      else none
    | none => none

/-- Read the members of a non-empty object, up to and including `}`. -/
def parseMembers : Nat → List Char → Option (JsonFields × List Char)
  | 0, _ => none
  | fuel + 1, cs =>
    let r0 := skipWs cs
    if r0.head? = some '"' then
      match parseStrBody r0.tail with
      | some (k, r) =>
        let r1 := skipWs r
        if r1.head? = some ':' then
          match parseVal fuel r1.tail with
          | some (v, r3) =>
            let r2 := skipWs r3
            if r2.head? = some ',' then
              (parseMembers fuel r2.tail).map (fun p => (.cons ⟨k⟩ v p.1, p.2))
            else if r2.head? = some '}' then some (.cons ⟨k⟩ v .nil, r2.tail)
            else none
          | none => none
        else none
      | none => none
    else none

end

/-- `serde_json::from_str`: read one value and require only whitespace after
it. -/
def parseDoc (s : String) : Option Json :=
  match parseVal (s.data.length + 1) s.data with
  | some (j, rest) => if (skipWs rest).isEmpty then some j else none
  | none => none

/-- `serde_json::to_string_pretty(&self.values)` as performed by
`Project::write_to_file` / `PackageJson::write_to_file`. -/
def write_to_file_output (doc : Json) : String := ⟨prettyPrint doc⟩

/-- `Project::update_dependency_version` (`src/project.rs` lines 43–70);
`PackageJson::update_dependency_version` (`src/package.rs` lines 49–71) is
the same computation with the arguments unpacked from a `Report`. The
package name has `'/'` escaped to `"~1"`, the new value is the range symbol
(if any) prepended to the version, and the assignment is attempted first
through the pointer `/dependencies/<escaped>`, then through
`/devDependencies/<escaped>`; if both pointers resolve to nothing the
document is left unchanged. -/
def update_dependency_version (doc : Json) (name version : String)
    (range_symbol : Option Char) : Json :=
  let package_json_pointer := escapePointerToken name.data
  let latest_version : String :=
    match range_symbol with
    | some c => ⟨c :: version.data⟩
    | none => version
  match pointerMutSet doc (('/' :: "dependencies".data) ++ ('/' :: package_json_pointer))
      (.str latest_version) with
  | some d => d
  | none =>
    match pointerMutSet doc
        (('/' :: "devDependencies".data) ++ ('/' :: package_json_pointer))
        (.str latest_version) with
    | some d => d
    | none => doc

/-! ## Projections of the selection state, and its invariant -/

def activeLen (s : AppState) : Nat :=
  match s.active_table with
  | .Runtime => s.dependencies_len
  | .Dev => s.dev_dependencies_len

def activeCursor (s : AppState) : Option Nat :=
  match s.active_table with
  | .Runtime => s.dependencies_table_state
  | .Dev => s.dev_dependencies_table_state

def inactiveCursor (s : AppState) : Option Nat :=
  match s.active_table with
  | .Runtime => s.dev_dependencies_table_state
  | .Dev => s.dependencies_table_state

def activeToggles (s : AppState) : Finset Nat :=
  match s.active_table with
  | .Runtime => s.update_index
  | .Dev => s.dev_update_index

def inactiveToggles (s : AppState) : Finset Nat :=
  match s.active_table with
  | .Runtime => s.dev_update_index
  | .Dev => s.update_index

/-- The spec's selection-state invariant: a populated table's cursor is a
defined in-range index, and every toggled index is in range for its table. -/
def InvState (s : AppState) : Prop :=
  (s.dependencies_len ≠ 0 →
    ∃ i, s.dependencies_table_state = some i ∧ i < s.dependencies_len)
  ∧ (s.dev_dependencies_len ≠ 0 →
    ∃ i, s.dev_dependencies_table_state = some i ∧ i < s.dev_dependencies_len)
  ∧ (∀ i ∈ s.update_index, i < s.dependencies_len)
  ∧ (∀ i ∈ s.dev_update_index, i < s.dev_dependencies_len)

/-- Strengthened invariant used for the induction: additionally the active
table is populated and both lengths fit in `usize`. -/
def StrongInv (s : AppState) : Prop :=
  InvState s ∧ activeLen s ≠ 0 ∧ s.dependencies_len < USIZE ∧ s.dev_dependencies_len < USIZE

/-- The classification rule order exactly as the claim states it: Pre-1.0
first, equality considered only last (a second, spec-side definition used to
compare against the code's `classifyUpdate`). -/
def specClassifyOrder (c l : Version) : Option VersionSection :=
  if l.major = 0 then some .preV1
  else if l.major > c.major then some .major
  else if l.minor > c.minor then some .minor
  else if l.patch > c.patch then some .patch
  else none

/-- The value written for a dependency entry: the range symbol (if any)
prepended to the new version. -/
def rangeConcat (range_symbol : Option Char) (version : String) : String :=
  match range_symbol with
  | some c => ⟨c :: version.data⟩
  | none => version

/-- The character list does not begin with a decimal digit (the condition
under which a printed number followed by this list parses back
unambiguously). -/
def headNotDigit (cs : List Char) : Prop :=
  ∀ c, cs.head? = some c → c.isDigit = false

/-! ## Theorems -/

/-- Claim C1 (code bug): a failing fetch is not isolated to its package.
Evaluating the embedded code at the failing input shows: the interactive
event loop's fetch-result handler aborts (the `Err` arm is `todo!()`) instead
of continuing, and in the batch variant an `Err` completing before another
package's `Ok` makes the per-dependency scan `break`, so package `"a"` —
whose own fetch succeeded with a newer version — is excluded from
classification; with the completion order reversed it is classified as a
major update. -/
theorem fetch_error_not_isolated :
    handleFetchResult (.error ()) [] = none
    ∧ classifyDep "a" "1.0.0" [.error (), .ok ⟨"a", ⟨"2.0.0"⟩⟩] = .ok []
    ∧ classifyDep "a" "1.0.0" [.ok ⟨"a", ⟨"2.0.0"⟩⟩, .error ()] = .ok [.major] :=
  ⟨rfl, by decide, by decide⟩

/-- Claim C2 (code bug): the write targets `./package.json` in the current
working directory, not the path the manifest was loaded from. With a custom
directory argument the two differ; they agree only when no directory
argument is given. -/
theorem write_path_not_load_path :
    manifestLoadPath ["home", "user"] (some ["repos", "proj"])
      = ["repos", "proj", "package.json"]
    ∧ projectWritePath ["home", "user"] = ["home", "user", "package.json"]
    ∧ manifestLoadPath ["home", "user"] (some ["repos", "proj"])
      ≠ projectWritePath ["home", "user"]
    ∧ manifestLoadPath ["home", "user"] none = projectWritePath ["home", "user"] := by
  refine ⟨rfl, rfl, ?_, rfl⟩
  decide

/-- Claim C3, counterexample: for current `"0.5.0"` and latest `"0.5.0"` the
claim's rule order (Pre-1.0 first, equality last) classifies into the
Pre-1.0 bucket, but the code checks string equality first and produces no
report. -/
theorem classification_rule_order_cex :
    classifyUpdate "0.5.0" "0.5.0" = .ok none
    ∧ parseVersion (stripCarets "0.5.0") = some ⟨0, 5, 0⟩
    ∧ parseVersion "0.5.0" = some ⟨0, 5, 0⟩
    ∧ specClassifyOrder ⟨0, 5, 0⟩ ⟨0, 5, 0⟩ = some VersionSection.preV1 := by
  refine ⟨by decide, by decide, by decide, by decide⟩

/-- Claim C3 (amended): the comparison is numeric on parsed
major/minor/patch triples, but caret-stripped string equality is checked
first and yields no report (so a 0.x dependency already at its latest
version is not reported); only then do the rules apply in order: latest
major = 0 → Pre-1.0, major greater → Major, minor greater → Minor, patch
greater → Patch, otherwise no report. -/
theorem classifyUpdate_characterization (raw_current latest_version : String)
    (c l : Version)
    (hc : parseVersion (stripCarets raw_current) = some c)
    (hl : parseVersion latest_version = some l) :
    classifyUpdate raw_current latest_version
      = .ok (if stripCarets raw_current = latest_version then none
        else if l.major = 0 then some .preV1
        else if l.major > c.major then some .major
        else if l.minor > c.minor then some .minor
        else if l.patch > c.patch then some .patch
        else none) := by
  unfold classifyUpdate
  by_cases h : stripCarets raw_current = latest_version
  · simp [h]
  · simp only [h, if_false]
    rw [hc, hl]

theorem classifyUpdate_characterization_witness :
    parseVersion (stripCarets "1.2.3") = some ⟨1, 2, 3⟩
    ∧ parseVersion "1.3.0" = some ⟨1, 3, 0⟩
    ∧ classifyUpdate "1.2.3" "1.3.0"
      = .ok (if stripCarets "1.2.3" = "1.3.0" then none
        else if (1 : Nat) = 0 then some .preV1
        else if (1 : Nat) > 1 then some .major
        else if (3 : Nat) > 2 then some .minor
        else if (0 : Nat) > 3 then some .patch
        else none) :=
  ⟨by decide, by decide,
    classifyUpdate_characterization "1.2.3" "1.3.0" ⟨1, 2, 3⟩ ⟨1, 3, 0⟩
      (by decide) (by decide)⟩

/-- Claim C5, counterexample: with both tables empty (a reachable initial
state), the active table is empty and its cursor unset, yet `toggleUpdate`
is not a no-op — it toggles index 0 into the runtime toggle set. -/
theorem toggleUpdate_on_empty_not_noop :
    (initState 0 0).active_table = DependencyTable.Runtime
    ∧ (initState 0 0).dependencies_table_state = none
    ∧ (initState 0 0).update_index = ∅
    ∧ (toggleUpdate (initState 0 0)).update_index = {0} := by
  refine ⟨by decide, by decide, by decide, by decide⟩

/-- Claim C5 (amended): `toggleUpdate` flips membership of the active
table's cursor index in that table's toggle set, treating an unset cursor as
index 0 — so on an empty table it is not a no-op but toggles index 0. All
other state components are unchanged. -/
theorem toggleUpdate_flips_membership (s : AppState) :
    activeToggles (toggleUpdate s)
      = (if (activeCursor s).getD 0 ∈ activeToggles s
         then (activeToggles s).erase ((activeCursor s).getD 0)
         else insert ((activeCursor s).getD 0) (activeToggles s))
    ∧ inactiveToggles (toggleUpdate s) = inactiveToggles s
    ∧ (toggleUpdate s).active_table = s.active_table
    ∧ (toggleUpdate s).dependencies_len = s.dependencies_len
    ∧ (toggleUpdate s).dev_dependencies_len = s.dev_dependencies_len
    ∧ (toggleUpdate s).dependencies_table_state = s.dependencies_table_state
    ∧ (toggleUpdate s).dev_dependencies_table_state = s.dev_dependencies_table_state := by
  cases h : s.active_table
  case Runtime =>
    by_cases hm : s.dependencies_table_state.getD 0 ∈ s.update_index <;>
      simp [toggleUpdate, activeToggles, inactiveToggles, activeCursor, h, hm]
  case Dev =>
    by_cases hm : s.dev_dependencies_table_state.getD 0 ∈ s.dev_update_index <;>
      simp [toggleUpdate, activeToggles, inactiveToggles, activeCursor, h, hm]

/-- Claim C6, counterexample: with both tables empty (a reachable initial
state), `next` and `previous` are not no-ops — each sets the unset runtime
cursor to index 0. -/
theorem next_on_empty_not_noop :
    (initState 0 0).dependencies_table_state = none
    ∧ (next (initState 0 0)).dependencies_table_state = some 0
    ∧ (previous (initState 0 0)).dependencies_table_state = some 0 := by
  refine ⟨by decide, by decide, by decide⟩

/-- Claim C6 (amended): on a populated active table with cursor at a valid
index `i`, `next` moves the cursor to `i + 1` wrapping to 0 at the last
index, and `previous` moves it to `i - 1` wrapping to the last index at 0;
but on an empty active table with unset cursor they are not no-ops — each
sets the cursor to index 0. The active-table choice and the other table's
cursor are unchanged. -/
theorem next_previous_cursor_behavior (s : AppState) :
    (∀ i, activeCursor s = some i → i < activeLen s → activeLen s < USIZE →
      activeCursor (next s) = some (if i = activeLen s - 1 then 0 else i + 1)
      ∧ activeCursor (previous s) = some (if i = 0 then activeLen s - 1 else i - 1))
    ∧ (activeCursor s = none →
      activeCursor (next s) = some 0 ∧ activeCursor (previous s) = some 0)
    ∧ (next s).active_table = s.active_table
    ∧ (previous s).active_table = s.active_table
    ∧ inactiveCursor (next s) = inactiveCursor s
    ∧ inactiveCursor (previous s) = inactiveCursor s := by
  have hdec : ∀ n : Nat, 0 < n → n < USIZE → usizeDec n = n - 1 := by
    intro n h1 h2
    unfold usizeDec
    have h3 : n + (USIZE - 1) = (n - 1) + 1 * USIZE := by
      have : 0 < USIZE := by decide
      omega
    rw [h3, Nat.add_mul_mod_self_right, Nat.mod_eq_of_lt]
    omega
  cases h : s.active_table
  case Runtime =>
    refine ⟨?_, ?_, ?_, ?_, ?_, ?_⟩
    · intro i hc hlt hb
      have hc' : s.dependencies_table_state = some i := by
        simpa [activeCursor, h] using hc
      have hlen : activeLen s = s.dependencies_len := by simp [activeLen, h]
      rw [hlen] at hlt hb ⊢
      have hd := hdec s.dependencies_len (by omega) hb
      constructor
      · have hgoal : (if i ≥ usizeDec s.dependencies_len then 0 else i + 1)
            = (if i = s.dependencies_len - 1 then 0 else i + 1) := by
          rw [hd]
          by_cases hA : i = s.dependencies_len - 1
          · rw [if_pos (by omega), if_pos hA]
          · rw [if_neg (by omega), if_neg hA]
        simp [next, nextOn, activeCursor, h, hc', hgoal]
      · simp [previous, previousOn, activeCursor, h, hc', hd]
    · intro hnone
      have hc' : s.dependencies_table_state = none := by
        simpa [activeCursor, h] using hnone
      constructor
      · simp [next, nextOn, activeCursor, h, hc']
      · simp [previous, previousOn, activeCursor, h, hc']
    · simp [next, h]
    · simp [previous, h]
    · simp [next, inactiveCursor, h]
    · simp [previous, inactiveCursor, h]
  case Dev =>
    refine ⟨?_, ?_, ?_, ?_, ?_, ?_⟩
    · intro i hc hlt hb
      have hc' : s.dev_dependencies_table_state = some i := by
        simpa [activeCursor, h] using hc
      have hlen : activeLen s = s.dev_dependencies_len := by simp [activeLen, h]
      rw [hlen] at hlt hb ⊢
      have hd := hdec s.dev_dependencies_len (by omega) hb
      constructor
      · have hgoal : (if i ≥ usizeDec s.dev_dependencies_len then 0 else i + 1)
            = (if i = s.dev_dependencies_len - 1 then 0 else i + 1) := by
          rw [hd]
          by_cases hA : i = s.dev_dependencies_len - 1
          · rw [if_pos (by omega), if_pos hA]
          · rw [if_neg (by omega), if_neg hA]
        simp [next, nextOn, activeCursor, h, hc', hgoal]
      · simp [previous, previousOn, activeCursor, h, hc', hd]
    · intro hnone
      have hc' : s.dev_dependencies_table_state = none := by
        simpa [activeCursor, h] using hnone
      constructor
      · simp [next, nextOn, activeCursor, h, hc']
      · simp [previous, previousOn, activeCursor, h, hc']
    · simp [next, h]
    · simp [previous, h]
    · simp [next, inactiveCursor, h]
    · simp [previous, inactiveCursor, h]

theorem next_previous_cursor_behavior_witness :
    activeCursor (initState 3 0) = some 0
    ∧ (0 : Nat) < activeLen (initState 3 0)
    ∧ activeLen (initState 3 0) < USIZE
    ∧ (activeCursor (next (initState 3 0))
        = some (if 0 = activeLen (initState 3 0) - 1 then 0 else 0 + 1)
      ∧ activeCursor (previous (initState 3 0))
        = some (if (0 : Nat) = 0 then activeLen (initState 3 0) - 1 else 0 - 1)) :=
  ⟨by decide, by decide, by decide,
    (next_previous_cursor_behavior (initState 3 0)).1 0 (by decide) (by decide) (by decide)⟩

theorem usizeDec_eq_sub_one {n : Nat} (h1 : 0 < n) (h2 : n < USIZE) :
    usizeDec n = n - 1 := by
  unfold usizeDec
  have h3 : n + (USIZE - 1) = (n - 1) + 1 * USIZE := by
    have : 0 < USIZE := by decide
    omega
  rw [h3, Nat.add_mul_mod_self_right, Nat.mod_eq_of_lt]
  omega

theorem nextOn_lt (cursor : Option Nat) (len : Nat) (h0 : len ≠ 0) (hb : len < USIZE) :
    nextOn cursor len < len := by
  cases cursor with
  | none => simpa [nextOn] using Nat.pos_of_ne_zero h0
  | some i =>
    have hd := usizeDec_eq_sub_one (Nat.pos_of_ne_zero h0) hb
    simp only [nextOn, hd]
    split <;> omega

theorem previousOn_lt (cursor : Option Nat) (len : Nat) (h0 : len ≠ 0) (hb : len < USIZE)
    (hin : ∀ i, cursor = some i → i < len) : previousOn cursor len < len := by
  cases cursor with
  | none => simpa [previousOn] using Nat.pos_of_ne_zero h0
  | some i =>
    have hd := usizeDec_eq_sub_one (Nat.pos_of_ne_zero h0) hb
    have hi := hin i rfl
    simp only [previousOn, hd]
    split <;> omega

theorem step_preserves_StrongInv (a : SelectionAction) (s : AppState)
    (h : StrongInv s) : StrongInv (stepAction a s) := by
  obtain ⟨⟨hdep, hdev, hu, hdu⟩, hact, hb1, hb2⟩ := h
  cases s with
  | mk dl dvl act dcs dvcs ui dui =>
    dsimp only at hdep hdev hu hdu hb1 hb2
    simp only [activeLen] at hact
    cases a with
    | next =>
      cases act with
      | Runtime =>
        have hdl : dl ≠ 0 := hact
        have hstep : stepAction SelectionAction.next
            (AppState.mk dl dvl .Runtime dcs dvcs ui dui)
            = AppState.mk dl dvl .Runtime (some (nextOn dcs dl)) dvcs ui dui := rfl
        rw [hstep]
        exact ⟨⟨fun _ => ⟨_, rfl, nextOn_lt dcs dl hdl hb1⟩, hdev, hu, hdu⟩, hdl, hb1, hb2⟩
      | Dev =>
        have hdvl : dvl ≠ 0 := hact
        have hstep : stepAction SelectionAction.next
            (AppState.mk dl dvl .Dev dcs dvcs ui dui)
            = AppState.mk dl dvl .Dev dcs (some (nextOn dvcs dvl)) ui dui := rfl
        rw [hstep]
        exact ⟨⟨hdep, fun _ => ⟨_, rfl, nextOn_lt dvcs dvl hdvl hb2⟩, hu, hdu⟩, hdvl, hb1, hb2⟩
    | previous =>
      cases act with
      | Runtime =>
        have hdl : dl ≠ 0 := hact
        have hin : ∀ i, dcs = some i → i < dl := by
          intro i hi
          obtain ⟨j, hj, hjl⟩ := hdep hdl
          rw [hj] at hi
          exact (Option.some_inj.mp hi) ▸ hjl
        have hstep : stepAction SelectionAction.previous
            (AppState.mk dl dvl .Runtime dcs dvcs ui dui)
            = AppState.mk dl dvl .Runtime (some (previousOn dcs dl)) dvcs ui dui := rfl
        rw [hstep]
        exact ⟨⟨fun _ => ⟨_, rfl, previousOn_lt dcs dl hdl hb1 hin⟩, hdev, hu, hdu⟩,
          hdl, hb1, hb2⟩
      | Dev =>
        have hdvl : dvl ≠ 0 := hact
        have hin : ∀ i, dvcs = some i → i < dvl := by
          intro i hi
          obtain ⟨j, hj, hjl⟩ := hdev hdvl
          rw [hj] at hi
          exact (Option.some_inj.mp hi) ▸ hjl
        have hstep : stepAction SelectionAction.previous
            (AppState.mk dl dvl .Dev dcs dvcs ui dui)
            = AppState.mk dl dvl .Dev dcs (some (previousOn dvcs dvl)) ui dui := rfl
        rw [hstep]
        exact ⟨⟨hdep, fun _ => ⟨_, rfl, previousOn_lt dvcs dvl hdvl hb2 hin⟩, hu, hdu⟩,
          hdvl, hb1, hb2⟩
    | switchTable =>
      by_cases hz : dl = 0 ∨ dvl = 0
      · have hstep : stepAction SelectionAction.switchTable
            (AppState.mk dl dvl act dcs dvcs ui dui)
            = AppState.mk dl dvl act dcs dvcs ui dui := by
          cases act <;> simp [stepAction, switchTable, hz]
        rw [hstep]
        exact ⟨⟨hdep, hdev, hu, hdu⟩, hact, hb1, hb2⟩
      · push_neg at hz
        cases act with
        | Runtime =>
          have hstep : stepAction SelectionAction.switchTable
              (AppState.mk dl dvl .Runtime dcs dvcs ui dui)
              = AppState.mk dl dvl .Dev dcs dvcs ui dui := by
            simp [stepAction, switchTable, hz.1, hz.2]
          rw [hstep]
          exact ⟨⟨hdep, hdev, hu, hdu⟩, hz.2, hb1, hb2⟩
        | Dev =>
          have hstep : stepAction SelectionAction.switchTable
              (AppState.mk dl dvl .Dev dcs dvcs ui dui)
              = AppState.mk dl dvl .Runtime dcs dvcs ui dui := by
            simp [stepAction, switchTable, hz.1, hz.2]
          rw [hstep]
          exact ⟨⟨hdep, hdev, hu, hdu⟩, hz.1, hb1, hb2⟩
    | toggleUpdate =>
      cases act with
      | Runtime =>
        have hdl : dl ≠ 0 := hact
        obtain ⟨j, hj, hjl⟩ := hdep hdl
        subst hj
        by_cases hm : j ∈ ui
        · have hstep : stepAction SelectionAction.toggleUpdate
              (AppState.mk dl dvl .Runtime (some j) dvcs ui dui)
              = AppState.mk dl dvl .Runtime (some j) dvcs (ui.erase j) dui := by
            simp [stepAction, toggleUpdate, hm]
          rw [hstep]
          exact ⟨⟨fun _ => ⟨j, rfl, hjl⟩, hdev,
            fun i hi => hu i (Finset.mem_of_mem_erase hi), hdu⟩, hdl, hb1, hb2⟩
        · have hstep : stepAction SelectionAction.toggleUpdate
              (AppState.mk dl dvl .Runtime (some j) dvcs ui dui)
              = AppState.mk dl dvl .Runtime (some j) dvcs (insert j ui) dui := by
            simp [stepAction, toggleUpdate, hm]
          rw [hstep]
          refine ⟨⟨fun _ => ⟨j, rfl, hjl⟩, hdev, ?_, hdu⟩, hdl, hb1, hb2⟩
          intro i hi
          rcases Finset.mem_insert.mp hi with hh | hh
          · exact hh ▸ hjl
          · exact hu i hh
      | Dev =>
        have hdvl : dvl ≠ 0 := hact
        obtain ⟨j, hj, hjl⟩ := hdev hdvl
        subst hj
        by_cases hm : j ∈ dui
        · have hstep : stepAction SelectionAction.toggleUpdate
              (AppState.mk dl dvl .Dev dcs (some j) ui dui)
              = AppState.mk dl dvl .Dev dcs (some j) ui (dui.erase j) := by
            simp [stepAction, toggleUpdate, hm]
          rw [hstep]
          exact ⟨⟨hdep, fun _ => ⟨j, rfl, hjl⟩, hu,
            fun i hi => hdu i (Finset.mem_of_mem_erase hi)⟩, hdvl, hb1, hb2⟩
        · have hstep : stepAction SelectionAction.toggleUpdate
              (AppState.mk dl dvl .Dev dcs (some j) ui dui)
              = AppState.mk dl dvl .Dev dcs (some j) ui (insert j dui) := by
            simp [stepAction, toggleUpdate, hm]
          rw [hstep]
          refine ⟨⟨hdep, fun _ => ⟨j, rfl, hjl⟩, hu, ?_⟩, hdvl, hb1, hb2⟩
          intro i hi
          rcases Finset.mem_insert.mp hi with hh | hh
          · exact hh ▸ hjl
          · exact hdu i hh

theorem runActions_preserves_StrongInv (acts : List SelectionAction) (s : AppState)
    (h : StrongInv s) : StrongInv (runActions acts s) := by
  induction acts generalizing s with
  | nil => simpa [runActions] using h
  | cons a rest ih =>
    have h1 := step_preserves_StrongInv a s h
    simpa [runActions, List.foldl] using ih (stepAction a s) h1

theorem initState_StrongInv (dl dvl : Nat) (h : dl ≠ 0 ∨ dvl ≠ 0)
    (hb1 : dl < USIZE) (hb2 : dvl < USIZE) : StrongInv (initState dl dvl) := by
  by_cases h1 : dl = 0
  · have h2 : dvl ≠ 0 := by tauto
    have hstep : initState dl dvl = AppState.mk dl dvl .Dev none (some 0) ∅ ∅ := by
      simp [initState, h1, h2]
    rw [hstep]
    refine ⟨⟨fun hz => absurd h1 hz, fun _ => ⟨0, rfl, Nat.pos_of_ne_zero h2⟩,
      ?_, ?_⟩, h2, hb1, hb2⟩ <;> intro i hi <;> simp at hi
  · by_cases h2 : dvl = 0
    · have hstep : initState dl dvl = AppState.mk dl dvl .Runtime (some 0) none ∅ ∅ := by
        simp [initState, h1, h2]
      rw [hstep]
      refine ⟨⟨fun _ => ⟨0, rfl, Nat.pos_of_ne_zero h1⟩, fun hz => absurd h2 hz,
        ?_, ?_⟩, h1, hb1, hb2⟩ <;> intro i hi <;> simp at hi
    · have hstep : initState dl dvl = AppState.mk dl dvl .Runtime (some 0) (some 0) ∅ ∅ := by
        simp [initState, h1, h2]
      rw [hstep]
      refine ⟨⟨fun _ => ⟨0, rfl, Nat.pos_of_ne_zero h1⟩,
        fun _ => ⟨0, rfl, Nat.pos_of_ne_zero h2⟩, ?_, ?_⟩, h1, hb1, hb2⟩ <;>
        intro i hi <;> simp at hi

/-- Claim C7, counterexample: from the reachable initial state with both
tables empty, a single `toggleUpdate` puts index 0 into the runtime toggle
set, violating the invariant that every toggled index lies below the table
length. -/
theorem toggle_breaks_toggle_range_cex :
    ¬ (∀ i ∈ (runActions [SelectionAction.toggleUpdate] (initState 0 0)).update_index,
        i < (runActions [SelectionAction.toggleUpdate] (initState 0 0)).dependencies_len) := by
  decide

/-- Claim C7 (amended): provided at least one table is non-empty (and both
lengths fit in `usize`), every sequence of selection transitions from the
initial state preserves the invariant: a populated table's cursor is a
defined index in `[0, len)`, and every toggle-set index is in `[0, len)` for
its table. With both tables empty the invariant fails after one
`toggleUpdate`. -/
theorem selection_state_invariant (dl dvl : Nat) (h : dl ≠ 0 ∨ dvl ≠ 0)
    (hb1 : dl < USIZE) (hb2 : dvl < USIZE) (acts : List SelectionAction) :
    InvState (runActions acts (initState dl dvl)) :=
  (runActions_preserves_StrongInv acts _ (initState_StrongInv dl dvl h hb1 hb2)).1

theorem selection_state_invariant_witness :
    InvState (runActions [SelectionAction.next, SelectionAction.toggleUpdate]
      (initState 2 1)) :=
  selection_state_invariant 2 1 (Or.inl (by decide)) (by decide) (by decide) _

/-! ### Pointer-escaping and pointer-navigation lemmas -/

theorem splitOnCharAux_no_sep (sep : Char) (cs : List Char) :
    ∀ acc, (∀ c ∈ cs, c ≠ sep) → splitOnCharAux sep cs acc = [acc.reverse ++ cs] := by
  induction cs with
  | nil => intro acc _; simp [splitOnCharAux]
  | cons c rest ih =>
    intro acc h
    have hc : c ≠ sep := h c (by simp)
    have hrest : ∀ x ∈ rest, x ≠ sep := fun x hx => h x (by simp [hx])
    simp only [splitOnCharAux, if_neg hc]
    rw [ih (c :: acc) hrest]
    simp

theorem splitOnCharAux_mid (sep : Char) (l1 l2 : List Char) :
    ∀ acc, (∀ c ∈ l1, c ≠ sep) →
      splitOnCharAux sep (l1 ++ sep :: l2) acc
        = (acc.reverse ++ l1) :: splitOnCharAux sep l2 [] := by
  induction l1 with
  | nil => intro acc _; simp [splitOnCharAux]
  | cons c rest ih =>
    intro acc h
    have hc : c ≠ sep := h c (by simp)
    have hrest : ∀ x ∈ rest, x ≠ sep := fun x hx => h x (by simp [hx])
    simp only [List.cons_append, splitOnCharAux, if_neg hc, List.append_eq]
    rw [ih (c :: acc) hrest]
    simp

theorem escapePointerToken_no_slash (cs : List Char) :
    ∀ c ∈ escapePointerToken cs, c ≠ '/' := by
  induction cs with
  | nil => simp [escapePointerToken]
  | cons c rest ih =>
    by_cases hc : c = '/' <;> simp only [escapePointerToken, hc, if_pos, if_neg] <;>
      intro x hx
    · simp at hx
      rcases hx with h | h | h
      · simp [h]
      · simp [h]
      · exact ih x h
    · simp [hc] at hx ⊢
      rcases hx with h | h
      · simp [h, hc]
      · exact ih x h

theorem pointerTokens_two (l1 esc : List Char)
    (h1 : ∀ c ∈ l1, c ≠ '/') (h2 : ∀ c ∈ esc, c ≠ '/') :
    ((splitOnChar '/' ('/' :: (l1 ++ '/' :: esc))).drop 1).map unescapePointerToken
      = [unescapePointerToken l1, unescapePointerToken esc] := by
  unfold splitOnChar
  rw [show splitOnCharAux '/' ('/' :: (l1 ++ '/' :: esc)) []
      = List.reverse [] :: splitOnCharAux '/' (l1 ++ '/' :: esc) [] from by
    simp [splitOnCharAux]]
  rw [splitOnCharAux_mid '/' l1 esc [] h1, splitOnCharAux_no_sep '/' esc [] h2]
  simp

theorem pointerMutSet_two (j : Json) (l1 esc : List Char) (v : Json)
    (h1 : ∀ c ∈ l1, c ≠ '/') (h2 : ∀ c ∈ esc, c ≠ '/') :
    pointerMutSet j ('/' :: (l1 ++ '/' :: esc)) v
      = setPointerTokens j [unescapePointerToken l1, unescapePointerToken esc] v := by
  unfold pointerMutSet
  rw [if_neg (by simp), if_pos (by simp), pointerTokens_two l1 esc h1 h2]

theorem hasPair_cons_tail (a b c : Char) (t : List Char)
    (h : hasPair a b (c :: t) = false) : hasPair a b t = false := by
  cases t with
  | nil => rfl
  | cons d rest =>
    simp only [hasPair, Bool.or_eq_false_iff] at h
    exact h.2

theorem replacePair_no_occ (a b : Char) (r : List Char) :
    ∀ cs, hasPair a b cs = false → replacePair a b r cs = cs
  | [], _ => rfl
  | [c], _ => rfl
  | c :: d :: rest, h => by
    simp only [hasPair, Bool.or_eq_false_iff] at h
    have hcd : ¬ (c = a ∧ d = b) := by
      intro ⟨e1, e2⟩
      simp [e1, e2] at h
    simp only [replacePair, if_neg hcd]
    rw [replacePair_no_occ a b r (d :: rest) (by
      cases rest with
      | nil => rfl
      | cons x t =>
        simp only [hasPair, Bool.or_eq_false_iff] at h ⊢
        exact h.2)]

theorem escapePointerToken_nil_iff (cs : List Char) :
    escapePointerToken cs = [] ↔ cs = [] := by
  cases cs with
  | nil => simp [escapePointerToken]
  | cons c rest =>
    by_cases hc : c = '/' <;> simp [escapePointerToken, hc]

theorem replacePair_unescape_slash :
    ∀ nm, hasPair '~' '1' nm = false →
      replacePair '~' '1' ['/'] (escapePointerToken nm) = nm := by
  intro nm
  induction nm with
  | nil => intro _; rfl
  | cons c t ih =>
    intro h
    have ht : hasPair '~' '1' t = false := hasPair_cons_tail _ _ _ _ h
    by_cases hc : c = '/'
    · subst hc
      rw [show escapePointerToken ('/' :: t) = '~' :: '1' :: escapePointerToken t from by
        simp [escapePointerToken]]
      have : replacePair '~' '1' ['/'] ('~' :: '1' :: escapePointerToken t)
          = ['/'] ++ replacePair '~' '1' ['/'] (escapePointerToken t) := by
        simp [replacePair]
      rw [this, ih ht]
      rfl
    · simp only [escapePointerToken, if_neg hc]
      cases hesc : escapePointerToken t with
      | nil =>
        have : t = [] := (escapePointerToken_nil_iff t).mp hesc
        subst this
        rfl
      | cons d rest =>
        have hnd : ¬ (c = '~' ∧ d = '1') := by
          rintro ⟨rfl, rfl⟩
          cases t with
          | nil => simp [escapePointerToken] at hesc
          | cons x t2 =>
            by_cases hx : x = '/'
            · simp [escapePointerToken, hx] at hesc
            · simp only [escapePointerToken, if_neg hx] at hesc
              have : x = '1' := (List.cons.injEq _ _ _ _ ▸ hesc).1
              subst this
              simp [hasPair] at h
        rw [show replacePair '~' '1' ['/'] (c :: d :: rest)
            = c :: replacePair '~' '1' ['/'] (d :: rest) from by
          simp [replacePair, hnd]]
        rw [← hesc, ih ht]

theorem unescape_escape (nm : List Char)
    (h0 : hasPair '~' '0' nm = false) (h1 : hasPair '~' '1' nm = false) :
    unescapePointerToken (escapePointerToken nm) = nm := by
  unfold unescapePointerToken
  rw [replacePair_unescape_slash nm h1, replacePair_no_occ '~' '0' ['~'] nm h0]

/-! ### Object-mapping lemmas -/

theorem objGet_objSet_self : ∀ (fs : JsonFields) (k : String) (v old : Json),
    objGet fs k = some old → objGet (objSet fs k v) k = some v
  | .nil, k, v, old, h => by simp [objGet] at h
  | .cons k' v' rest, k, v, old, h => by
    by_cases hk : k' = k
    · simp [objGet, objSet, hk]
    · simp only [objGet, objSet, if_neg hk] at h ⊢
      exact objGet_objSet_self rest k v old h

theorem objGet_objSet_ne : ∀ (fs : JsonFields) (k k' : String) (v : Json),
    k' ≠ k → objGet (objSet fs k v) k' = objGet fs k'
  | .nil, k, k', v, h => by simp [objGet, objSet]
  | .cons k0 v0 rest, k, k', v, h => by
    by_cases hk : k0 = k
    · subst hk
      have hne : k0 ≠ k' := fun e => h (e ▸ rfl)
      simp only [objSet, if_pos rfl, objGet, if_neg hne]
    · simp only [objSet, if_neg hk, objGet]
      by_cases hk' : k0 = k'
      · simp [hk']
      · simp only [if_neg hk']
        exact objGet_objSet_ne rest k k' v h

theorem objKeys_objSet : ∀ (fs : JsonFields) (k : String) (v : Json),
    objKeys (objSet fs k v) = objKeys fs
  | .nil, _, _ => rfl
  | .cons k0 v0 rest, k, v => by
    by_cases hk : k0 = k <;> simp [objSet, objKeys, hk, objKeys_objSet rest k v]

/-! ### Two-level pointer assignment -/

theorem setPointerTokens_two_found (fields g : JsonFields) (t1 t2 : List Char)
    (v old : Json)
    (hg : objGet fields (String.mk t1) = some (.obj g))
    (hold : objGet g (String.mk t2) = some old) :
    setPointerTokens (.obj fields) [t1, t2] v
      = some (.obj (objSet fields (String.mk t1)
          (.obj (objSet g (String.mk t2) v)))) := by
  simp [setPointerTokens, hg, hold]

theorem setPointerTokens_two_miss (fields : JsonFields) (t1 t2 : List Char) (v : Json)
    (hm : ∀ g, objGet fields (String.mk t1) = some (.obj g) →
      objGet g (String.mk t2) = none)
    (ha : ∀ xs, objGet fields (String.mk t1) ≠ some (.arr xs)) :
    setPointerTokens (.obj fields) [t1, t2] v = none := by
  cases hq : objGet fields (String.mk t1) with
  | none => simp [setPointerTokens, hq]
  | some child =>
    cases child with
    | null => simp [setPointerTokens, hq]
    | bool b => simp [setPointerTokens, hq]
    | num n => simp [setPointerTokens, hq]
    | str s => simp [setPointerTokens, hq]
    | arr xs => exact absurd hq (ha xs)
    | obj g => simp [setPointerTokens, hq, hm g hq]

theorem update_found_runtime (fields deps : JsonFields) (name version : String)
    (rs : Option Char) (old : Json)
    (h0 : hasPair '~' '0' name.data = false) (h1 : hasPair '~' '1' name.data = false)
    (hdeps : objGet fields "dependencies" = some (.obj deps))
    (hold : objGet deps name = some old) :
    update_dependency_version (.obj fields) name version rs
      = .obj (objSet fields "dependencies"
          (.obj (objSet deps name (.str (rangeConcat rs version))))) := by
  simp only [update_dependency_version]
  have epD : ∀ t : List Char,
      (['/', 'd', 'e', 'p', 'e', 'n', 'd', 'e', 'n', 'c', 'i', 'e', 's'] ++ '/' :: t)
        = '/' :: ("dependencies".data ++ '/' :: t) := fun _ => rfl
  have epV : ∀ t : List Char,
      (['/', 'd', 'e', 'v', 'D', 'e', 'p', 'e', 'n', 'd', 'e', 'n', 'c', 'i', 'e', 's']
          ++ '/' :: t)
        = '/' :: ("devDependencies".data ++ '/' :: t) := fun _ => rfl
  rw [epD, epV]
  rw [pointerMutSet_two _ _ _ _ (by decide) (escapePointerToken_no_slash name.data)]
  rw [show unescapePointerToken ("dependencies".data) = "dependencies".data from by decide]
  rw [unescape_escape name.data h0 h1]
  rw [setPointerTokens_two_found fields deps _ _ _ old hdeps hold]
  rfl

theorem update_found_dev (fields dev : JsonFields) (name version : String)
    (rs : Option Char) (old : Json)
    (h0 : hasPair '~' '0' name.data = false) (h1 : hasPair '~' '1' name.data = false)
    (hm : ∀ g, objGet fields "dependencies" = some (.obj g) → objGet g name = none)
    (ha : ∀ xs, objGet fields "dependencies" ≠ some (.arr xs))
    (hdev : objGet fields "devDependencies" = some (.obj dev))
    (hold : objGet dev name = some old) :
    update_dependency_version (.obj fields) name version rs
      = .obj (objSet fields "devDependencies"
          (.obj (objSet dev name (.str (rangeConcat rs version))))) := by
  simp only [update_dependency_version]
  have epD : ∀ t : List Char,
      (['/', 'd', 'e', 'p', 'e', 'n', 'd', 'e', 'n', 'c', 'i', 'e', 's'] ++ '/' :: t)
        = '/' :: ("dependencies".data ++ '/' :: t) := fun _ => rfl
  have epV : ∀ t : List Char,
      (['/', 'd', 'e', 'v', 'D', 'e', 'p', 'e', 'n', 'd', 'e', 'n', 'c', 'i', 'e', 's']
          ++ '/' :: t)
        = '/' :: ("devDependencies".data ++ '/' :: t) := fun _ => rfl
  rw [epD, epV]
  rw [pointerMutSet_two _ _ _ _ (by decide) (escapePointerToken_no_slash name.data)]
  rw [pointerMutSet_two _ _ _ _ (by decide) (escapePointerToken_no_slash name.data)]
  rw [show unescapePointerToken ("dependencies".data) = "dependencies".data from by decide]
  rw [show unescapePointerToken ("devDependencies".data) = "devDependencies".data from by
    decide]
  rw [unescape_escape name.data h0 h1]
  rw [setPointerTokens_two_miss fields _ _ _ hm ha]
  rw [setPointerTokens_two_found fields dev _ _ _ old hdev hold]
  rfl

theorem update_no_match (fields : JsonFields) (name version : String) (rs : Option Char)
    (h0 : hasPair '~' '0' name.data = false) (h1 : hasPair '~' '1' name.data = false)
    (hm1 : ∀ g, objGet fields "dependencies" = some (.obj g) → objGet g name = none)
    (ha1 : ∀ xs, objGet fields "dependencies" ≠ some (.arr xs))
    (hm2 : ∀ g, objGet fields "devDependencies" = some (.obj g) → objGet g name = none)
    (ha2 : ∀ xs, objGet fields "devDependencies" ≠ some (.arr xs)) :
    update_dependency_version (.obj fields) name version rs = .obj fields := by
  simp only [update_dependency_version]
  have epD : ∀ t : List Char,
      (['/', 'd', 'e', 'p', 'e', 'n', 'd', 'e', 'n', 'c', 'i', 'e', 's'] ++ '/' :: t)
        = '/' :: ("dependencies".data ++ '/' :: t) := fun _ => rfl
  have epV : ∀ t : List Char,
      (['/', 'd', 'e', 'v', 'D', 'e', 'p', 'e', 'n', 'd', 'e', 'n', 'c', 'i', 'e', 's']
          ++ '/' :: t)
        = '/' :: ("devDependencies".data ++ '/' :: t) := fun _ => rfl
  rw [epD, epV]
  rw [pointerMutSet_two _ _ _ _ (by decide) (escapePointerToken_no_slash name.data)]
  rw [pointerMutSet_two _ _ _ _ (by decide) (escapePointerToken_no_slash name.data)]
  rw [show unescapePointerToken ("dependencies".data) = "dependencies".data from by decide]
  rw [show unescapePointerToken ("devDependencies".data) = "devDependencies".data from by
    decide]
  rw [unescape_escape name.data h0 h1]
  rw [setPointerTokens_two_miss fields _ _ _ hm1 ha1]
  rw [setPointerTokens_two_miss fields _ _ _ hm2 ha2]

/-- Claim C4, counterexample: the package name `"a~1b"` is present in the
runtime mapping, yet `updateDependencyVersion` leaves the document entirely
unchanged — the un-escaped pointer token is decoded as `"a/b"` and the lookup
misses, because `'~'` is not escaped to `"~0"` when the pointer is built. -/
theorem update_present_name_noop_cex :
    objGet (JsonFields.cons "a~1b" (.str "1.0.0") .nil) "a~1b" = some (.str "1.0.0")
    ∧ update_dependency_version
        (.obj (.cons "dependencies" (.obj (.cons "a~1b" (.str "1.0.0") .nil)) .nil))
        "a~1b" "2.0.0" none
      = .obj (.cons "dependencies" (.obj (.cons "a~1b" (.str "1.0.0") .nil)) .nil) :=
  ⟨rfl, by decide⟩

/-- Claim C4 (amended): for every package name free of the literal JSON
pointer escape sequences `"~0"` and `"~1"`, `updateDependencyVersion`
locates the name first in the runtime mapping and only otherwise in the dev
mapping (first match wins when the name appears in both), and replaces that
entry's value with the range prefix concatenated with the new version (or
the bare version with no prefix). A name containing `"~0"` or `"~1"` can be
missed (or hit a different entry) because the source escapes only `'/'`. -/
theorem update_dependency_version_locates (fields deps dev : JsonFields)
    (name version : String) (rs : Option Char) (old : Json)
    (h0 : hasPair '~' '0' name.data = false)
    (h1 : hasPair '~' '1' name.data = false) :
    (objGet fields "dependencies" = some (.obj deps) → objGet deps name = some old →
      update_dependency_version (.obj fields) name version rs
        = .obj (objSet fields "dependencies"
            (.obj (objSet deps name (.str (rangeConcat rs version))))))
    ∧ ((∀ g, objGet fields "dependencies" = some (.obj g) → objGet g name = none) →
      (∀ xs, objGet fields "dependencies" ≠ some (.arr xs)) →
      objGet fields "devDependencies" = some (.obj dev) → objGet dev name = some old →
      update_dependency_version (.obj fields) name version rs
        = .obj (objSet fields "devDependencies"
            (.obj (objSet dev name (.str (rangeConcat rs version)))))) :=
  ⟨fun hdeps hold => update_found_runtime fields deps name version rs old h0 h1 hdeps hold,
   fun hm ha hdev hold => update_found_dev fields dev name version rs old h0 h1 hm ha hdev hold⟩

theorem update_dependency_version_locates_witness :
    (objGet (JsonFields.cons "dependencies"
        (.obj (.cons "left-pad" (.str "^1.3.0") .nil)) .nil) "dependencies"
      = some (.obj (.cons "left-pad" (.str "^1.3.0") .nil))
    ∧ objGet (JsonFields.cons "left-pad" (.str "^1.3.0") .nil) "left-pad"
      = some (.str "^1.3.0"))
    ∧ update_dependency_version
        (.obj (.cons "dependencies" (.obj (.cons "left-pad" (.str "^1.3.0") .nil)) .nil))
        "left-pad" "2.0.0" (some '^')
      = .obj (objSet (.cons "dependencies"
          (.obj (.cons "left-pad" (.str "^1.3.0") .nil)) .nil) "dependencies"
          (.obj (objSet (.cons "left-pad" (.str "^1.3.0") .nil) "left-pad"
            (.str (rangeConcat (some '^') "2.0.0"))))) :=
  ⟨⟨rfl, rfl⟩,
    (update_dependency_version_locates
      (.cons "dependencies" (.obj (.cons "left-pad" (.str "^1.3.0") .nil)) .nil)
      (.cons "left-pad" (.str "^1.3.0") .nil) .nil
      "left-pad" "2.0.0" (some '^') (.str "^1.3.0") (by decide) (by decide)).1
      rfl rfl⟩

/-- Claim C9, counterexample: for the scoped package name `"@s/x~0y"`
(path separator present, plus a literal `"~0"`), the update leaves the
named entry untouched and instead corrupts its sibling `"@s/x~y"` — the
escaping is not symmetric with how the mapping is indexed because `'~'` is
left unescaped. -/
theorem scoped_name_sibling_corrupted_cex :
    update_dependency_version
        (.obj (.cons "dependencies"
          (.obj (.cons "@s/x~0y" (.str "1.0.0")
            (.cons "@s/x~y" (.str "3.0.0") .nil))) .nil))
        "@s/x~0y" "2.0.0" none
      = .obj (.cons "dependencies"
          (.obj (.cons "@s/x~0y" (.str "1.0.0")
            (.cons "@s/x~y" (.str "2.0.0") .nil))) .nil) := by
  decide

/-- Claim C9 (amended): for every scoped package name containing the path
separator `'/'` but free of the literal escape sequences `"~0"`/`"~1"`,
`updateDependencyVersion` addresses and mutates exactly that entry, wherever
it lives: when the name is present in the runtime mapping, that entry
receives the new value; when it is absent there and present in the dev
mapping, the dev entry receives it. In both cases every sibling entry is
unchanged and the key order is preserved. -/
theorem scoped_update_mutates_exactly (fields : JsonFields)
    (name version : String) (rs : Option Char)
    (hsep : '/' ∈ name.data)
    (h0 : hasPair '~' '0' name.data = false)
    (h1 : hasPair '~' '1' name.data = false) :
    (∀ (deps : JsonFields) (old : Json),
      objGet fields "dependencies" = some (.obj deps) →
      objGet deps name = some old →
      ∃ deps',
        update_dependency_version (.obj fields) name version rs
          = .obj (objSet fields "dependencies" (.obj deps'))
        ∧ objGet deps' name = some (.str (rangeConcat rs version))
        ∧ (∀ k, k ≠ name → objGet deps' k = objGet deps k)
        ∧ objKeys deps' = objKeys deps)
    ∧ (∀ (dev : JsonFields) (old : Json),
      (∀ g, objGet fields "dependencies" = some (.obj g) → objGet g name = none) →
      (∀ xs, objGet fields "dependencies" ≠ some (.arr xs)) →
      objGet fields "devDependencies" = some (.obj dev) →
      objGet dev name = some old →
      ∃ dev',
        update_dependency_version (.obj fields) name version rs
          = .obj (objSet fields "devDependencies" (.obj dev'))
        ∧ objGet dev' name = some (.str (rangeConcat rs version))
        ∧ (∀ k, k ≠ name → objGet dev' k = objGet dev k)
        ∧ objKeys dev' = objKeys dev) :=
  ⟨fun deps old hdeps hold =>
    ⟨objSet deps name (.str (rangeConcat rs version)),
      update_found_runtime fields deps name version rs old h0 h1 hdeps hold,
      objGet_objSet_self deps name _ old hold,
      fun k hk => objGet_objSet_ne deps name k _ hk,
      objKeys_objSet deps name _⟩,
   fun dev old hm ha hdev hold =>
    ⟨objSet dev name (.str (rangeConcat rs version)),
      update_found_dev fields dev name version rs old h0 h1 hm ha hdev hold,
      objGet_objSet_self dev name _ old hold,
      fun k hk => objGet_objSet_ne dev name k _ hk,
      objKeys_objSet dev name _⟩⟩

theorem scoped_update_mutates_exactly_witness :
    '/' ∈ ("@scope/name".data)
    ∧ (∃ deps',
        update_dependency_version
            (.obj (.cons "dependencies"
              (.obj (.cons "@scope/name" (.str "1.0.0")
                (.cons "sib" (.str "3.0.0") .nil))) .nil))
            "@scope/name" "2.0.0" none
          = .obj (objSet (.cons "dependencies"
              (.obj (.cons "@scope/name" (.str "1.0.0")
                (.cons "sib" (.str "3.0.0") .nil))) .nil) "dependencies" (.obj deps'))
        ∧ objGet deps' "@scope/name" = some (.str (rangeConcat none "2.0.0"))
        ∧ (∀ k, k ≠ "@scope/name" → objGet deps'
            k = objGet (JsonFields.cons "@scope/name" (.str "1.0.0")
              (.cons "sib" (.str "3.0.0") .nil)) k)
        ∧ objKeys deps' = objKeys (JsonFields.cons "@scope/name" (.str "1.0.0")
            (.cons "sib" (.str "3.0.0") .nil)))
    ∧ (∃ dev',
        update_dependency_version
            (.obj (.cons "dependencies" (.obj (.cons "a" (.str "1.0.0") .nil))
              (.cons "devDependencies"
                (.obj (.cons "@scope/tool" (.str "1.0.0")
                  (.cons "sib" (.str "3.0.0") .nil))) .nil)))
            "@scope/tool" "2.0.0" none
          = .obj (objSet (.cons "dependencies" (.obj (.cons "a" (.str "1.0.0") .nil))
              (.cons "devDependencies"
                (.obj (.cons "@scope/tool" (.str "1.0.0")
                  (.cons "sib" (.str "3.0.0") .nil))) .nil))
              "devDependencies" (.obj dev'))
        ∧ objGet dev' "@scope/tool" = some (.str (rangeConcat none "2.0.0"))
        ∧ (∀ k, k ≠ "@scope/tool" → objGet dev'
            k = objGet (JsonFields.cons "@scope/tool" (.str "1.0.0")
              (.cons "sib" (.str "3.0.0") .nil)) k)
        ∧ objKeys dev' = objKeys (JsonFields.cons "@scope/tool" (.str "1.0.0")
            (.cons "sib" (.str "3.0.0") .nil))) :=
  ⟨by decide,
   (scoped_update_mutates_exactly
      (.cons "dependencies"
        (.obj (.cons "@scope/name" (.str "1.0.0") (.cons "sib" (.str "3.0.0") .nil))) .nil)
      "@scope/name" "2.0.0" none (by decide) (by decide) (by decide)).1
     (.cons "@scope/name" (.str "1.0.0") (.cons "sib" (.str "3.0.0") .nil))
     (.str "1.0.0") rfl rfl,
   (scoped_update_mutates_exactly
      (.cons "dependencies" (.obj (.cons "a" (.str "1.0.0") .nil))
        (.cons "devDependencies"
          (.obj (.cons "@scope/tool" (.str "1.0.0")
            (.cons "sib" (.str "3.0.0") .nil))) .nil))
      "@scope/tool" "2.0.0" none (by decide) (by decide) (by decide)).2
     (.cons "@scope/tool" (.str "1.0.0") (.cons "sib" (.str "3.0.0") .nil))
     (.str "1.0.0")
     (by intro g hg; cases hg; decide) (by intro xs hg; cases hg) rfl rfl⟩

/-- Claim C10, counterexample: the name `"a~1b"` is present in neither
dependency mapping (the runtime mapping holds only `"a/b"`, there is no dev
mapping), yet the call is not a no-op: the escaped pointer token decodes to
`"a/b"` and that unrelated entry is overwritten. -/
theorem update_absent_name_mutates_cex :
    objGet (JsonFields.cons "a/b" (.str "1.0.0") .nil) "a~1b" = none
    ∧ update_dependency_version
        (.obj (.cons "dependencies" (.obj (.cons "a/b" (.str "1.0.0") .nil)) .nil))
        "a~1b" "2.0.0" none
      = .obj (.cons "dependencies" (.obj (.cons "a/b" (.str "2.0.0") .nil)) .nil) :=
  ⟨rfl, by decide⟩

/-- Claim C10 (amended): for every package name free of the literal escape
sequences `"~0"`/`"~1"` that is present in neither the runtime nor the dev
dependency mapping (each of which, when present, is a mapping),
`updateDependencyVersion` is a silent no-op: the document is unchanged and no
error is signalled. -/
theorem update_absent_name_noop (fields : JsonFields) (name version : String)
    (rs : Option Char)
    (h0 : hasPair '~' '0' name.data = false)
    (h1 : hasPair '~' '1' name.data = false)
    (hm1 : ∀ g, objGet fields "dependencies" = some (.obj g) → objGet g name = none)
    (ha1 : ∀ xs, objGet fields "dependencies" ≠ some (.arr xs))
    (hm2 : ∀ g, objGet fields "devDependencies" = some (.obj g) → objGet g name = none)
    (ha2 : ∀ xs, objGet fields "devDependencies" ≠ some (.arr xs)) :
    update_dependency_version (.obj fields) name version rs = .obj fields :=
  update_no_match fields name version rs h0 h1 hm1 ha1 hm2 ha2

theorem update_absent_name_noop_witness :
    update_dependency_version
        (.obj (.cons "dependencies" (.obj (.cons "left-pad" (.str "^1.3.0") .nil)) .nil))
        "absent-pkg" "2.0.0" none
      = .obj (.cons "dependencies" (.obj (.cons "left-pad" (.str "^1.3.0") .nil)) .nil) :=
  update_absent_name_noop
    (.cons "dependencies" (.obj (.cons "left-pad" (.str "^1.3.0") .nil)) .nil)
    "absent-pkg" "2.0.0" none (by decide) (by decide)
    (by intro g hg; cases hg; decide)
    (by intro xs hg; cases hg)
    (by intro g hg; cases hg)
    (by intro xs hg; cases hg)

/-! ### Whitespace and digit lemmas for the round-trip proof -/

theorem skipWs_cons_ws (c : Char) (cs : List Char) (h : isWsChar c = true) :
    skipWs (c :: cs) = skipWs cs := by
  simp [skipWs, h]

theorem skipWs_cons_not_ws (c : Char) (cs : List Char) (h : isWsChar c = false) :
    skipWs (c :: cs) = c :: cs := by
  simp [skipWs, h]

theorem skipWs_spaces (n : Nat) (cs : List Char) :
    skipWs (spacesIndent n ++ cs) = skipWs cs := by
  induction n with
  | zero => simp [spacesIndent]
  | succ m ih =>
    have : spacesIndent (m + 1) = ' ' :: spacesIndent m := by
      simp [spacesIndent, List.replicate]
    rw [this, List.cons_append, skipWs_cons_ws _ _ (by decide), ih]

theorem skipWs_idem (cs : List Char) : skipWs (skipWs cs) = skipWs cs := by
  induction cs with
  | nil => rfl
  | cons c rest ih =>
    by_cases h : isWsChar c = true
    · rw [skipWs_cons_ws c rest h, ih]
    · have h' : isWsChar c = false := by simpa using h
      rw [skipWs_cons_not_ws c rest h', skipWs_cons_not_ws c rest h']

theorem parseVal_skipWs (fuel : Nat) (cs : List Char) :
    parseVal fuel (skipWs cs) = parseVal fuel cs := by
  cases fuel with
  | zero => rfl
  | succ f => simp only [parseVal, skipWs_idem]

theorem parseItems_skipWs (fuel : Nat) (cs : List Char) :
    parseItems fuel (skipWs cs) = parseItems fuel cs := by
  cases fuel with
  | zero => rfl
  | succ f => simp only [parseItems, parseVal_skipWs]

theorem parseMembers_skipWs (fuel : Nat) (cs : List Char) :
    parseMembers fuel (skipWs cs) = parseMembers fuel cs := by
  cases fuel with
  | zero => rfl
  | succ f => simp only [parseMembers, skipWs_idem]

theorem parseVal_spaces (fuel : Nat) (n : Nat) (cs : List Char) :
    parseVal fuel (spacesIndent n ++ cs) = parseVal fuel cs := by
  rw [← parseVal_skipWs fuel (spacesIndent n ++ cs), skipWs_spaces, parseVal_skipWs]

theorem digit_not_ws (c : Char) (h : c.isDigit = true) : isWsChar c = false := by
  by_contra hw
  simp only [Bool.not_eq_false] at hw
  simp only [isWsChar, Bool.or_eq_true, decide_eq_true_eq] at hw
  rcases hw with ((h1 | h1) | h1) | h1 <;> subst h1 <;> exact absurd h (by decide)

theorem digitsVal_append_one (ds : List Char) (c : Char) :
    digitsVal (ds ++ [c]) = 10 * digitsVal ds + (c.toNat - 48) := by
  simp [digitsVal, List.foldl_append]

theorem toNat_ofNat_small (m : Nat) (h : m < 55296) : (Char.ofNat m).toNat = m := by
  unfold Char.ofNat
  rw [dif_pos (Or.inl h)]
  simp [Char.ofNatAux, Char.toNat, UInt32.toNat, BitVec.toNat_ofNatLt]

theorem isDigit_toNat (c : Char) : c.isDigit = true ↔ 48 ≤ c.toNat ∧ c.toNat ≤ 57 := by
  simp [Char.isDigit, UInt32.le_def, BitVec.le_def, Char.toNat, UInt32.toNat]

theorem natToCharsAux_spec :
    ∀ (fuel n : Nat) (acc : List Char), n < fuel →
      ∃ ds, natToCharsAux fuel n acc = ds ++ acc ∧ ds ≠ []
        ∧ (∀ c ∈ ds, c.isDigit = true) ∧ digitsVal ds = n := by
  intro fuel
  induction fuel with
  | zero => intro n acc h; omega
  | succ f ih =>
    intro n acc h
    have hdval : (Char.ofNat (48 + n % 10)).toNat = 48 + n % 10 :=
      toNat_ofNat_small _ (by omega)
    have hdig : (Char.ofNat (48 + n % 10)).isDigit = true :=
      (isDigit_toNat _).mpr (by omega)
    by_cases hlt : n < 10
    · refine ⟨[Char.ofNat (48 + n % 10)], ?_, by simp, ?_, ?_⟩
      · simp [natToCharsAux, hlt]
      · intro c hc
        rw [List.mem_singleton] at hc
        subst hc
        exact hdig
      · simp only [digitsVal, List.foldl_cons, List.foldl_nil]
        rw [Nat.mul_zero, Nat.zero_add, hdval]
        omega
    · have hrec : n / 10 < f := by omega
      obtain ⟨ds, heq, hne, hdigs, hval⟩ := ih (n / 10) (Char.ofNat (48 + n % 10) :: acc) hrec
      refine ⟨ds ++ [Char.ofNat (48 + n % 10)], ?_, by simp, ?_, ?_⟩
      · rw [show natToCharsAux (f + 1) n acc
            = natToCharsAux f (n / 10) (Char.ofNat (48 + n % 10) :: acc) from by
          simp [natToCharsAux, hlt]]
        rw [heq]
        simp
      · intro c hc
        rcases List.mem_append.mp hc with h1 | h1
        · exact hdigs c h1
        · rw [List.mem_singleton] at h1
          subst h1
          exact hdig
      · rw [digitsVal_append_one, hval, hdval]
        omega

theorem natToChars_spec (n : Nat) :
    ∃ ds, natToChars n = ds ∧ ds ≠ [] ∧ (∀ c ∈ ds, c.isDigit = true)
      ∧ digitsVal ds = n := by
  obtain ⟨ds, heq, hne, hd, hv⟩ := natToCharsAux_spec (n + 1) n [] (by omega)
  exact ⟨ds, by simpa [natToChars] using heq, hne, hd, hv⟩

theorem takeDigits_append (ds rest : List Char)
    (hds : ∀ c ∈ ds, c.isDigit = true) (h : headNotDigit rest) :
    takeDigits (ds ++ rest) = (ds, rest) := by
  induction ds with
  | nil =>
    cases rest with
    | nil => rfl
    | cons c r => simp [takeDigits, h c rfl]
  | cons d ds' ih =>
    have hd : d.isDigit = true := hds d (by simp)
    have ih' := ih (fun c hc => hds c (by simp [hc]))
    simp [takeDigits, hd, ih']

theorem parseNatPart_print (m : Nat) (rest : List Char) (h : headNotDigit rest) :
    parseNatPart (natToChars m ++ rest) = some (m, rest) := by
  obtain ⟨ds, heq, hne, hd, hv⟩ := natToChars_spec m
  rw [heq]
  unfold parseNatPart
  rw [takeDigits_append ds rest hd h]
  cases ds with
  | nil => exact absurd rfl hne
  | cons a b => simpa using hv

theorem hexVal_hexDigitChar : ∀ n : Nat, n < 16 → hexVal (hexDigitChar n) = some n := by
  decide

theorem parseStrBody_step_escape (e cc : Char) (Z : List Char)
    (hu : e ≠ 'u') (hun : unescapeChar e = some cc) :
    parseStrBody ('\\' :: e :: Z) = (parseStrBody Z).map (fun p => (cc :: p.1, p.2)) := by
  rw [parseStrBody.eq_def]
  simp [hu, hun]

theorem parseStrBody_step_hex (hx hy : Char) (a b : Nat) (Z : List Char)
    (ex : hexVal hx = some a) (ey : hexVal hy = some b) :
    parseStrBody ('\\' :: 'u' :: '0' :: '0' :: hx :: hy :: Z)
      = (parseStrBody Z).map
          (fun p => (Char.ofNat (((0 * 16 + 0) * 16 + a) * 16 + b) :: p.1, p.2)) := by
  rw [parseStrBody.eq_def]
  simp only [reduceIte, reduceCtorEq]
  rw [show hexVal '0' = some 0 from rfl, ex, ey]
  simp

theorem parseStrBody_step_raw (c : Char) (Z : List Char)
    (h1 : c ≠ '"') (h2 : c ≠ '\\') :
    parseStrBody (c :: Z) = (parseStrBody Z).map (fun p => (c :: p.1, p.2)) := by
  rw [parseStrBody.eq_def]
  simp [h1, h2]

theorem parseStrBody_escape : ∀ (s rest : List Char),
    parseStrBody (escapeJsonChars s ++ '"' :: rest) = some (s, rest) := by
  intro s
  induction s with
  | nil =>
    intro rest
    rw [show escapeJsonChars [] ++ '"' :: rest = '"' :: rest from rfl, parseStrBody.eq_def]
    simp
  | cons c t ih =>
    intro rest
    have hmain : escapeJsonChars (c :: t) ++ '"' :: rest
        = escapeChar c ++ (escapeJsonChars t ++ '"' :: rest) := by
      simp [escapeJsonChars]
    rw [hmain]
    by_cases h1 : c = '"'
    · subst h1
      rw [show escapeChar '"' = ['\\', '"'] from rfl]
      rw [show ∀ Z : List Char, (['\\', '"'] : List Char) ++ Z = '\\' :: '"' :: Z from
        fun Z => rfl]
      rw [parseStrBody_step_escape '"' '"' _ (by decide) rfl, ih rest]
      rfl
    · by_cases h2 : c = '\\'
      · subst h2
        rw [show escapeChar '\\' = ['\\', '\\'] from rfl]
        rw [show ∀ Z : List Char, (['\\', '\\'] : List Char) ++ Z = '\\' :: '\\' :: Z from
          fun Z => rfl]
        rw [parseStrBody_step_escape '\\' '\\' _ (by decide) rfl, ih rest]
        rfl
      · by_cases h3 : c.toNat < 32
        · have hofn : Char.ofNat c.toNat = c := Char.ofNat_toNat c
          by_cases e8 : c.toNat = 8
          · have hc : Char.ofNat 8 = c := by rw [← e8]; exact hofn
            have hesc : escapeChar c = ['\\', 'b'] := by
              simp [escapeChar, h1, h2, h3, e8]
            rw [hesc]
            rw [show ∀ Z : List Char, (['\\', 'b'] : List Char) ++ Z = '\\' :: 'b' :: Z from
              fun Z => rfl]
            rw [parseStrBody_step_escape 'b' c _ (by decide)
              (by rw [show unescapeChar 'b' = some (Char.ofNat 8) from rfl, hc]), ih rest]
            rfl
          · by_cases e9 : c.toNat = 9
            · have hc : Char.ofNat 9 = c := by rw [← e9]; exact hofn
              have hesc : escapeChar c = ['\\', 't'] := by
                simp [escapeChar, h1, h2, h3, e8, e9]
              rw [hesc]
              rw [show ∀ Z : List Char, (['\\', 't'] : List Char) ++ Z
                  = '\\' :: 't' :: Z from fun Z => rfl]
              rw [parseStrBody_step_escape 't' c _ (by decide)
                (by rw [show unescapeChar 't' = some (Char.ofNat 9) from rfl, hc]), ih rest]
              rfl
            · by_cases e10 : c.toNat = 10
              · have hc : Char.ofNat 10 = c := by rw [← e10]; exact hofn
                have hesc : escapeChar c = ['\\', 'n'] := by
                  simp [escapeChar, h1, h2, h3, e8, e9, e10]
                rw [hesc]
                rw [show ∀ Z : List Char, (['\\', 'n'] : List Char) ++ Z
                    = '\\' :: 'n' :: Z from fun Z => rfl]
                rw [parseStrBody_step_escape 'n' c _ (by decide)
                  (by rw [show unescapeChar 'n' = some (Char.ofNat 10) from rfl, hc]), ih rest]
                rfl
              · by_cases e12 : c.toNat = 12
                · have hc : Char.ofNat 12 = c := by rw [← e12]; exact hofn
                  have hesc : escapeChar c = ['\\', 'f'] := by
                    simp [escapeChar, h1, h2, h3, e8, e9, e10, e12]
                  rw [hesc]
                  rw [show ∀ Z : List Char, (['\\', 'f'] : List Char) ++ Z
                      = '\\' :: 'f' :: Z from fun Z => rfl]
                  rw [parseStrBody_step_escape 'f' c _ (by decide)
                    (by rw [show unescapeChar 'f' = some (Char.ofNat 12) from rfl, hc]), ih rest]
                  rfl
                · by_cases e13 : c.toNat = 13
                  · have hc : Char.ofNat 13 = c := by rw [← e13]; exact hofn
                    have hesc : escapeChar c = ['\\', 'r'] := by
                      simp [escapeChar, h1, h2, h3, e8, e9, e10, e12, e13]
                    rw [hesc]
                    rw [show ∀ Z : List Char, (['\\', 'r'] : List Char) ++ Z
                        = '\\' :: 'r' :: Z from fun Z => rfl]
                    rw [parseStrBody_step_escape 'r' c _ (by decide)
                      (by rw [show unescapeChar 'r' = some (Char.ofNat 13) from rfl, hc]), ih rest]
                    rfl
                  · have hesc : escapeChar c = ['\\', 'u', '0', '0',
                        hexDigitChar (c.toNat / 16), hexDigitChar (c.toNat % 16)] := by
                      simp [escapeChar, h1, h2, h3, e8, e9, e10, e12, e13]
                    rw [hesc]
                    rw [show ∀ Z : List Char,
                        (['\\', 'u', '0', '0', hexDigitChar (c.toNat / 16),
                          hexDigitChar (c.toNat % 16)] : List Char) ++ Z
                        = '\\' :: 'u' :: '0' :: '0' :: hexDigitChar (c.toNat / 16)
                          :: hexDigitChar (c.toNat % 16) :: Z from fun Z => rfl]
                    rw [parseStrBody_step_hex _ _ (c.toNat / 16) (c.toNat % 16) _
                      (hexVal_hexDigitChar (c.toNat / 16) (by omega))
                      (hexVal_hexDigitChar (c.toNat % 16) (by omega)), ih rest]
                    have e4 : c.toNat / 16 * 16 + c.toNat % 16 = c.toNat := by omega
                    simp [e4, hofn]
        · have hesc : escapeChar c = [c] := by
            simp [escapeChar, h1, h2, h3]
          rw [hesc]
          rw [show ∀ Z : List Char, ([c] : List Char) ++ Z = c :: Z from fun Z => rfl]
          rw [parseStrBody_step_raw c _ h1 h2, ih rest]
          rfl

theorem headNotDigit_cons {c : Char} (X : List Char) (h : c.isDigit = false) :
    headNotDigit (c :: X) := by
  intro d hd
  have : some c = some d := hd
  cases this
  exact h

theorem digit_not_bracket (c : Char) (h : c.isDigit = true) : c ≠ ']' ∧ c ≠ '}' := by
  constructor <;> intro e <;> subst e <;> exact absurd h (by decide)

theorem parseVal_ws_cons (fuel : Nat) (c : Char) (cs : List Char)
    (h : isWsChar c = true) : parseVal fuel (c :: cs) = parseVal fuel cs := by
  rw [← parseVal_skipWs fuel (c :: cs), skipWs_cons_ws c cs h, parseVal_skipWs]

theorem parseItems_ws_cons (fuel : Nat) (c : Char) (cs : List Char)
    (h : isWsChar c = true) : parseItems fuel (c :: cs) = parseItems fuel cs := by
  rw [← parseItems_skipWs fuel (c :: cs), skipWs_cons_ws c cs h, parseItems_skipWs]

theorem parseMembers_ws_cons (fuel : Nat) (c : Char) (cs : List Char)
    (h : isWsChar c = true) : parseMembers fuel (c :: cs) = parseMembers fuel cs := by
  rw [← parseMembers_skipWs fuel (c :: cs), skipWs_cons_ws c cs h, parseMembers_skipWs]

theorem parseNatPart_digits (ds rest : List Char) (hne : ds ≠ [])
    (hdig : ∀ c ∈ ds, c.isDigit = true) (h : headNotDigit rest) :
    parseNatPart (ds ++ rest) = some (digitsVal ds, rest) := by
  unfold parseNatPart
  rw [takeDigits_append ds rest hdig h]
  cases ds with
  | nil => exact absurd rfl hne
  | cons a b => rfl

theorem parseVal_digit (fuel : Nat) (c : Char) (cs : List Char) (h : c.isDigit = true) :
    parseVal (fuel + 1) (c :: cs)
      = (parseNatPart (c :: cs)).map (fun p => (Json.num (p.1 : Int), p.2)) := by
  have hw : isWsChar c = false := digit_not_ws c h
  have hn : c ≠ 'n' := fun e => absurd (e ▸ h) (by decide)
  have ht : c ≠ 't' := fun e => absurd (e ▸ h) (by decide)
  have hf : c ≠ 'f' := fun e => absurd (e ▸ h) (by decide)
  have hq : c ≠ '"' := fun e => absurd (e ▸ h) (by decide)
  have hlb : c ≠ '[' := fun e => absurd (e ▸ h) (by decide)
  have hlc : c ≠ '{' := fun e => absurd (e ▸ h) (by decide)
  have hm : c ≠ '-' := fun e => absurd (e ▸ h) (by decide)
  rw [parseVal.eq_def]
  simp [skipWs, hw, hn, ht, hf, hq, hlb, hlc, hm]

theorem sizeJ_pos : ∀ j : Json, 1 ≤ sizeJ j
  | .null => Nat.le_refl 1
  | .bool _ => Nat.le_refl 1
  | .num _ => Nat.le_refl 1
  | .str _ => Nat.le_refl 1
  | .arr xs => by rw [show sizeJ (.arr xs) = 1 + sizeJL xs from rfl]; omega
  | .obj fs => by rw [show sizeJ (.obj fs) = 1 + sizeJF fs from rfl]; omega

theorem sizeJL_pos : ∀ xs : JsonList, 1 ≤ sizeJL xs
  | .nil => Nat.le_refl 1
  | .cons x t => by rw [show sizeJL (.cons x t) = 1 + sizeJ x + sizeJL t from rfl]; omega

theorem sizeJF_pos : ∀ fs : JsonFields, 1 ≤ sizeJF fs
  | .nil => Nat.le_refl 1
  | .cons k v t => by rw [show sizeJF (.cons k v t) = 1 + sizeJ v + sizeJF t from rfl]; omega

theorem prettyAt_head : ∀ (ind : Nat) (j : Json),
    ∃ c cs, prettyAt ind j = c :: cs ∧ isWsChar c = false ∧ c ≠ ']' ∧ c ≠ '}' := by
  intro ind j
  cases j with
  | null => refine ⟨'n', _, rfl, ?_, ?_, ?_⟩ <;> decide
  | bool b =>
    cases b with
    | true => refine ⟨'t', _, rfl, ?_, ?_, ?_⟩ <;> decide
    | false => refine ⟨'f', _, rfl, ?_, ?_, ?_⟩ <;> decide
  | num n =>
    by_cases hn : n < 0
    · refine ⟨'-', natToChars n.natAbs, ?_, by decide, by decide, by decide⟩
      rw [show prettyAt ind (.num n) = intToChars n from rfl]
      simp [intToChars, hn]
    · obtain ⟨ds, hds, hne, hdig, hval⟩ := natToChars_spec n.toNat
      cases ds with
      | nil => exact absurd rfl hne
      | cons d ds' =>
        have hd : d.isDigit = true := hdig d (by simp)
        obtain ⟨hb1, hb2⟩ := digit_not_bracket d hd
        refine ⟨d, ds', ?_, digit_not_ws d hd, hb1, hb2⟩
        rw [show prettyAt ind (.num n) = intToChars n from rfl]
        simp [intToChars, hn, hds]
  | str s => refine ⟨'"', _, rfl, ?_, ?_, ?_⟩ <;> decide
  | arr xs =>
    cases xs with
    | nil => refine ⟨'[', _, rfl, ?_, ?_, ?_⟩ <;> decide
    | cons x t => refine ⟨'[', _, rfl, ?_, ?_, ?_⟩ <;> decide
  | obj fs =>
    cases fs with
    | nil => refine ⟨'{', _, rfl, ?_, ?_, ?_⟩ <;> decide
    | cons k v t => refine ⟨'{', _, rfl, ?_, ?_, ?_⟩ <;> decide

theorem parseItems_step (fuel : Nat) (cs r : List Char) (v : Json)
    (hpv : parseVal fuel cs = some (v, r)) :
    parseItems (fuel + 1) cs
      = (if (skipWs r).head? = some ',' then
          (parseItems fuel (skipWs r).tail).map (fun p => (JsonList.cons v p.1, p.2))
        else if (skipWs r).head? = some ']' then
          some (JsonList.cons v JsonList.nil, (skipWs r).tail)
        else none) := by
  have h1 : parseItems (fuel + 1) cs = (match parseVal fuel cs with
      | some (v, r) =>
        if (skipWs r).head? = some ',' then
          (parseItems fuel (skipWs r).tail).map (fun p => (JsonList.cons v p.1, p.2))
        else if (skipWs r).head? = some ']' then
          some (JsonList.cons v JsonList.nil, (skipWs r).tail)
        else none
      | none => none) := rfl
  rw [h1, hpv]

theorem parseMembers_step (fuel : Nat) (cs Q r r2 : List Char) (k : List Char) (v : Json)
    (r3 : List Char)
    (h0 : skipWs cs = '"' :: Q)
    (h1 : parseStrBody Q = some (k, r))
    (h2 : skipWs r = ':' :: r2)
    (h3 : parseVal fuel r2 = some (v, r3)) :
    parseMembers (fuel + 1) cs
      = (if (skipWs r3).head? = some ',' then
          (parseMembers fuel (skipWs r3).tail).map (fun p => (JsonFields.cons ⟨k⟩ v p.1, p.2))
        else if (skipWs r3).head? = some '}' then
          some (JsonFields.cons ⟨k⟩ v JsonFields.nil, (skipWs r3).tail)
        else none) := by
  have hstep : parseMembers (fuel + 1) cs = (if (skipWs cs).head? = some '"' then
      (match parseStrBody (skipWs cs).tail with
       | some (k, r) =>
         if (skipWs r).head? = some ':' then
           (match parseVal fuel (skipWs r).tail with
            | some (v, r3) =>
              if (skipWs r3).head? = some ',' then
                (parseMembers fuel (skipWs r3).tail).map
                  (fun p => (JsonFields.cons ⟨k⟩ v p.1, p.2))
              else if (skipWs r3).head? = some '}' then
                some (JsonFields.cons ⟨k⟩ v JsonFields.nil, (skipWs r3).tail)
              else none
            | none => none)
         else none
       | none => none)
      else none) := rfl
  rw [hstep, h0]
  simp only [List.head?_cons, List.tail_cons, reduceIte, h1, h2, h3]

theorem parseVal_quote (fuel : Nat) (X : List Char) :
    parseVal (fuel + 1) ('"' :: X)
      = (parseStrBody X).map (fun p => (Json.str ⟨p.1⟩, p.2)) := by
  rw [parseVal.eq_def]
  simp +decide [skipWs]

theorem parseVal_lbrack (fuel : Nat) (X : List Char) :
    parseVal (fuel + 1) ('[' :: X)
      = (if (skipWs X).head? = some ']' then some (Json.arr JsonList.nil, (skipWs X).tail)
        else (parseItems fuel (skipWs X)).map (fun p => (Json.arr p.1, p.2))) := by
  rw [parseVal.eq_def]
  simp +decide [skipWs]

theorem parseVal_lbrace (fuel : Nat) (X : List Char) :
    parseVal (fuel + 1) ('{' :: X)
      = (if (skipWs X).head? = some '}' then some (Json.obj JsonFields.nil, (skipWs X).tail)
        else (parseMembers fuel (skipWs X)).map (fun p => (Json.obj p.1, p.2))) := by
  rw [parseVal.eq_def]
  simp +decide [skipWs]

theorem parseVal_minus (fuel : Nat) (X : List Char) :
    parseVal (fuel + 1) ('-' :: X)
      = (parseNatPart X).map (fun p => (Json.num (-(p.1 : Int)), p.2)) := by
  rw [parseVal.eq_def]
  simp +decide [skipWs]

theorem natToChars_ne_nil (n : Nat) : natToChars n ≠ [] := by
  obtain ⟨ds, heq, hne, -, -⟩ := natToChars_spec n
  rw [heq]
  exact hne

theorem prettyItems_shape (ind : Nat) (x : Json) (t : JsonList) : ∃ T,
    prettyItems ind (.cons x t)
      = spacesIndent (ind + 2) ++ (prettyAt (ind + 2) x ++ T) := by
  cases t with
  | nil =>
    refine ⟨[], ?_⟩
    rw [show prettyItems ind (.cons x .nil)
        = spacesIndent (ind + 2) ++ prettyAt (ind + 2) x from rfl]
    simp
  | cons y u =>
    refine ⟨',' :: '\n' :: prettyItems ind (.cons y u), ?_⟩
    rw [show prettyItems ind (.cons x (.cons y u))
        = (spacesIndent (ind + 2) ++ prettyAt (ind + 2) x)
            ++ ',' :: '\n' :: prettyItems ind (.cons y u) from rfl]
    simp

theorem prettyFields_shape (ind : Nat) (k : String) (v : Json) (t : JsonFields) : ∃ T,
    prettyFields ind (.cons k v t)
      = spacesIndent (ind + 2)
          ++ ('"' :: (escapeJsonChars k.data
              ++ '"' :: ':' :: ' ' :: (prettyAt (ind + 2) v ++ T))) := by
  cases t with
  | nil =>
    refine ⟨[], ?_⟩
    rw [show prettyFields ind (.cons k v .nil)
        = spacesIndent (ind + 2) ++ ('"' :: (escapeJsonChars k.data
            ++ '"' :: ':' :: ' ' :: prettyAt (ind + 2) v)) from rfl]
    simp
  | cons k2 v2 u =>
    refine ⟨',' :: '\n' :: prettyFields ind (.cons k2 v2 u), ?_⟩
    rw [show prettyFields ind (.cons k v (.cons k2 v2 u))
        = (spacesIndent (ind + 2) ++ ('"' :: (escapeJsonChars k.data
            ++ '"' :: ':' :: ' ' :: prettyAt (ind + 2) v)))
            ++ ',' :: '\n' :: prettyFields ind (.cons k2 v2 u) from rfl]
    simp

theorem skipWs_close (ind : Nat) (c : Char) (rest : List Char) (h : isWsChar c = false) :
    skipWs ('\n' :: (spacesIndent ind ++ c :: rest)) = c :: rest := by
  rw [skipWs_cons_ws _ _ (by decide), skipWs_spaces, skipWs_cons_not_ws _ _ h]

theorem parse_pretty_roundtrip : ∀ fuel : Nat,
    (∀ (j : Json) (ind : Nat) (rest : List Char),
        sizeJ j ≤ fuel → headNotDigit rest →
        parseVal fuel (prettyAt ind j ++ rest) = some (j, rest))
    ∧ (∀ (xs : JsonList) (ind : Nat) (rest : List Char),
        xs ≠ JsonList.nil → sizeJL xs ≤ fuel →
        parseItems fuel
            (prettyItems ind xs ++ '\n' :: (spacesIndent ind ++ ']' :: rest))
          = some (xs, rest))
    ∧ (∀ (fs : JsonFields) (ind : Nat) (rest : List Char),
        fs ≠ JsonFields.nil → sizeJF fs ≤ fuel →
        parseMembers fuel
            (prettyFields ind fs ++ '\n' :: (spacesIndent ind ++ '}' :: rest))
          = some (fs, rest)) := by
  intro fuel
  induction fuel with
  | zero =>
    refine ⟨fun j ind rest hs _ => absurd hs (by have := sizeJ_pos j; omega),
      fun xs ind rest _ hs => absurd hs (by have := sizeJL_pos xs; omega),
      fun fs ind rest _ hs => absurd hs (by have := sizeJF_pos fs; omega)⟩
  | succ f ih =>
    obtain ⟨ihV, ihL, ihF⟩ := ih
    refine ⟨?_, ?_, ?_⟩
    · intro j ind rest hs hrest
      cases j with
      | null => rfl
      | bool b => cases b with | true => rfl | false => rfl
      | num n =>
        rw [show prettyAt ind (.num n) = intToChars n from rfl]
        by_cases hneg : n < 0
        · rw [show intToChars n = '-' :: natToChars n.natAbs from by simp [intToChars, hneg]]
          rw [List.cons_append, parseVal_minus, parseNatPart_print n.natAbs rest hrest]
          have hval : -((n.natAbs : Nat) : Int) = n := by omega
          simp only [Option.map_some']
          rw [hval]
        · obtain ⟨ds, hds, hne, hdig, hval⟩ := natToChars_spec n.toNat
          rw [show intToChars n = natToChars n.toNat from by simp [intToChars, hneg], hds]
          cases ds with
          | nil => exact absurd rfl hne
          | cons d ds' =>
            rw [List.cons_append, parseVal_digit f d _ (hdig d (by simp))]
            have hp := parseNatPart_digits (d :: ds') rest hne hdig hrest
            rw [show (d :: ds') ++ rest = d :: (ds' ++ rest) from rfl] at hp
            rw [hp]
            have hcast : ((digitsVal (d :: ds') : Nat) : Int) = n := by
              rw [hval]; omega
            simp [hcast]
      | str s =>
        have hshape : prettyAt ind (.str s) ++ rest
            = '"' :: (escapeJsonChars s.data ++ '"' :: rest) := by
          rw [show prettyAt ind (.str s)
              = '"' :: (escapeJsonChars s.data ++ ['"']) from rfl]
          simp
        rw [hshape, parseVal_quote, parseStrBody_escape]
        rfl
      | arr xs =>
        cases xs with
        | nil => rfl
        | cons x t =>
          obtain ⟨c0, cs0, hpa, hnw, hne1, hne2⟩ := prettyAt_head (ind + 2) x
          obtain ⟨T, hT⟩ := prettyItems_shape ind x t
          have hshape : prettyAt ind (.arr (.cons x t)) ++ rest
              = '[' :: '\n' :: (prettyItems ind (.cons x t)
                  ++ '\n' :: (spacesIndent ind ++ ']' :: rest)) := by
            rw [show prettyAt ind (.arr (.cons x t))
                = '[' :: '\n' :: (prettyItems ind (.cons x t)
                    ++ '\n' :: (spacesIndent ind ++ [']'])) from rfl]
            simp
          have hX : skipWs ('\n' :: (prettyItems ind (.cons x t)
                ++ '\n' :: (spacesIndent ind ++ ']' :: rest)))
              = c0 :: (cs0 ++ (T ++ '\n' :: (spacesIndent ind ++ ']' :: rest))) := by
            rw [skipWs_cons_ws _ _ (by decide), hT, hpa]
            rw [show (spacesIndent (ind + 2) ++ ((c0 :: cs0) ++ T))
                  ++ '\n' :: (spacesIndent ind ++ ']' :: rest)
                = spacesIndent (ind + 2)
                    ++ (c0 :: (cs0 ++ (T ++ '\n' :: (spacesIndent ind ++ ']' :: rest))))
              from by simp]
            rw [skipWs_spaces, skipWs_cons_not_ws _ _ hnw]
          have hsl : sizeJL (.cons x t) ≤ f := by
            have he : sizeJ (.arr (.cons x t)) = 1 + sizeJL (.cons x t) := rfl
            omega
          rw [hshape, parseVal_lbrack, hX, if_neg (by simp [hne1]), ← hX,
            parseItems_skipWs, parseItems_ws_cons _ _ _ (by decide),
            ihL (.cons x t) ind rest (fun h => JsonList.noConfusion h) hsl]
          rfl
      | obj fs =>
        cases fs with
        | nil => rfl
        | cons k v t =>
          obtain ⟨T, hT⟩ := prettyFields_shape ind k v t
          have hshape : prettyAt ind (.obj (.cons k v t)) ++ rest
              = '{' :: '\n' :: (prettyFields ind (.cons k v t)
                  ++ '\n' :: (spacesIndent ind ++ '}' :: rest)) := by
            rw [show prettyAt ind (.obj (.cons k v t))
                = '{' :: '\n' :: (prettyFields ind (.cons k v t)
                    ++ '\n' :: (spacesIndent ind ++ ['}'])) from rfl]
            simp
          have hX : skipWs ('\n' :: (prettyFields ind (.cons k v t)
                ++ '\n' :: (spacesIndent ind ++ '}' :: rest)))
              = '"' :: ((escapeJsonChars k.data
                  ++ '"' :: ':' :: ' ' :: (prettyAt (ind + 2) v ++ T))
                  ++ '\n' :: (spacesIndent ind ++ '}' :: rest)) := by
            rw [skipWs_cons_ws _ _ (by decide), hT]
            rw [show (spacesIndent (ind + 2) ++ ('"' :: (escapeJsonChars k.data
                  ++ '"' :: ':' :: ' ' :: (prettyAt (ind + 2) v ++ T))))
                  ++ '\n' :: (spacesIndent ind ++ '}' :: rest)
                = spacesIndent (ind + 2) ++ ('"' :: ((escapeJsonChars k.data
                    ++ '"' :: ':' :: ' ' :: (prettyAt (ind + 2) v ++ T))
                    ++ '\n' :: (spacesIndent ind ++ '}' :: rest)))
              from by simp]
            rw [skipWs_spaces, skipWs_cons_not_ws _ _ (by decide)]
          have hsf : sizeJF (.cons k v t) ≤ f := by
            have he : sizeJ (.obj (.cons k v t)) = 1 + sizeJF (.cons k v t) := rfl
            omega
          rw [hshape, parseVal_lbrace, hX, if_neg (by simp), ← hX,
            parseMembers_skipWs, parseMembers_ws_cons _ _ _ (by decide),
            ihF (.cons k v t) ind rest (fun h => JsonFields.noConfusion h) hsf]
          rfl
    · intro xs ind rest hxs hs
      cases xs with
      | nil => exact absurd rfl hxs
      | cons x t =>
        cases t with
        | nil =>
          have hcs : prettyItems ind (.cons x .nil)
                ++ '\n' :: (spacesIndent ind ++ ']' :: rest)
              = spacesIndent (ind + 2) ++ (prettyAt (ind + 2) x
                  ++ '\n' :: (spacesIndent ind ++ ']' :: rest)) := by
            rw [show prettyItems ind (.cons x .nil)
                = spacesIndent (ind + 2) ++ prettyAt (ind + 2) x from rfl]
            simp
          have hsx : sizeJ x ≤ f := by
            have he : sizeJL (.cons x .nil) = 1 + sizeJ x + 1 := rfl
            omega
          have hpv : parseVal f (prettyItems ind (.cons x .nil)
                ++ '\n' :: (spacesIndent ind ++ ']' :: rest))
              = some (x, '\n' :: (spacesIndent ind ++ ']' :: rest)) := by
            rw [hcs, parseVal_spaces]
            exact ihV x (ind + 2) _ hsx (headNotDigit_cons _ (by decide))
          rw [parseItems_step f _ _ _ hpv, skipWs_close ind ']' rest (by decide)]
          simp +decide
        | cons y u =>
          have hcs : prettyItems ind (.cons x (.cons y u))
                ++ '\n' :: (spacesIndent ind ++ ']' :: rest)
              = spacesIndent (ind + 2) ++ (prettyAt (ind + 2) x
                  ++ ',' :: '\n' :: (prettyItems ind (.cons y u)
                    ++ '\n' :: (spacesIndent ind ++ ']' :: rest))) := by
            rw [show prettyItems ind (.cons x (.cons y u))
                = (spacesIndent (ind + 2) ++ prettyAt (ind + 2) x)
                    ++ ',' :: '\n' :: prettyItems ind (.cons y u) from rfl]
            simp
          have hsx : sizeJ x ≤ f := by
            have he : sizeJL (.cons x (.cons y u))
                = 1 + sizeJ x + sizeJL (.cons y u) := rfl
            have := sizeJL_pos (.cons y u)
            omega
          have hst : sizeJL (.cons y u) ≤ f := by
            have he : sizeJL (.cons x (.cons y u))
                = 1 + sizeJ x + sizeJL (.cons y u) := rfl
            have := sizeJ_pos x
            omega
          have hpv : parseVal f (prettyItems ind (.cons x (.cons y u))
                ++ '\n' :: (spacesIndent ind ++ ']' :: rest))
              = some (x, ',' :: '\n' :: (prettyItems ind (.cons y u)
                  ++ '\n' :: (spacesIndent ind ++ ']' :: rest))) := by
            rw [hcs, parseVal_spaces]
            exact ihV x (ind + 2) _ hsx (headNotDigit_cons _ (by decide))
          rw [parseItems_step f _ _ _ hpv,
            skipWs_cons_not_ws _ _ (by decide)]
          rw [if_pos (show (',' :: '\n' :: (prettyItems ind (.cons y u)
              ++ '\n' :: (spacesIndent ind ++ ']' :: rest))).head? = some ','
            from rfl)]
          rw [show (',' :: '\n' :: (prettyItems ind (.cons y u)
                ++ '\n' :: (spacesIndent ind ++ ']' :: rest))).tail
              = '\n' :: (prettyItems ind (.cons y u)
                  ++ '\n' :: (spacesIndent ind ++ ']' :: rest)) from rfl]
          rw [parseItems_ws_cons _ _ _ (by decide),
            ihL (.cons y u) ind rest (fun h => JsonList.noConfusion h) hst]
          rfl
    · intro fs ind rest hfs hs
      cases fs with
      | nil => exact absurd rfl hfs
      | cons k v t =>
        cases t with
        | nil =>
          have hcs : prettyFields ind (.cons k v .nil)
                ++ '\n' :: (spacesIndent ind ++ '}' :: rest)
              = spacesIndent (ind + 2) ++ ('"' :: (escapeJsonChars k.data
                  ++ '"' :: ':' :: ' ' :: (prettyAt (ind + 2) v
                    ++ '\n' :: (spacesIndent ind ++ '}' :: rest)))) := by
            rw [show prettyFields ind (.cons k v .nil)
                = spacesIndent (ind + 2) ++ ('"' :: (escapeJsonChars k.data
                    ++ '"' :: ':' :: ' ' :: prettyAt (ind + 2) v)) from rfl]
            simp
          have hsv : sizeJ v ≤ f := by
            have he : sizeJF (.cons k v .nil) = 1 + sizeJ v + 1 := rfl
            omega
          have h0 : skipWs (prettyFields ind (.cons k v .nil)
                ++ '\n' :: (spacesIndent ind ++ '}' :: rest))
              = '"' :: (escapeJsonChars k.data
                  ++ '"' :: ':' :: ' ' :: (prettyAt (ind + 2) v
                    ++ '\n' :: (spacesIndent ind ++ '}' :: rest))) := by
            rw [hcs, skipWs_spaces, skipWs_cons_not_ws _ _ (by decide)]
          have h1 : parseStrBody (escapeJsonChars k.data
                ++ '"' :: (':' :: ' ' :: (prettyAt (ind + 2) v
                  ++ '\n' :: (spacesIndent ind ++ '}' :: rest))))
              = some (k.data, ':' :: ' ' :: (prettyAt (ind + 2) v
                  ++ '\n' :: (spacesIndent ind ++ '}' :: rest))) :=
            parseStrBody_escape k.data _
          have h2 : skipWs (':' :: ' ' :: (prettyAt (ind + 2) v
                ++ '\n' :: (spacesIndent ind ++ '}' :: rest)))
              = ':' :: (' ' :: (prettyAt (ind + 2) v
                  ++ '\n' :: (spacesIndent ind ++ '}' :: rest))) :=
            skipWs_cons_not_ws _ _ (by decide)
          have h3 : parseVal f (' ' :: (prettyAt (ind + 2) v
                ++ '\n' :: (spacesIndent ind ++ '}' :: rest)))
              = some (v, '\n' :: (spacesIndent ind ++ '}' :: rest)) := by
            rw [parseVal_ws_cons _ _ _ (by decide)]
            exact ihV v (ind + 2) _ hsv (headNotDigit_cons _ (by decide))
          rw [parseMembers_step f _ _ _ _ k.data v _ h0 h1 h2 h3,
            skipWs_close ind '}' rest (by decide)]
          simp +decide
        | cons k2 v2 u =>
          have hcs : prettyFields ind (.cons k v (.cons k2 v2 u))
                ++ '\n' :: (spacesIndent ind ++ '}' :: rest)
              = spacesIndent (ind + 2) ++ ('"' :: (escapeJsonChars k.data
                  ++ '"' :: ':' :: ' ' :: (prettyAt (ind + 2) v
                    ++ ',' :: '\n' :: (prettyFields ind (.cons k2 v2 u)
                      ++ '\n' :: (spacesIndent ind ++ '}' :: rest))))) := by
            rw [show prettyFields ind (.cons k v (.cons k2 v2 u))
                = (spacesIndent (ind + 2) ++ ('"' :: (escapeJsonChars k.data
                    ++ '"' :: ':' :: ' ' :: prettyAt (ind + 2) v)))
                    ++ ',' :: '\n' :: prettyFields ind (.cons k2 v2 u) from rfl]
            simp
          have hsv : sizeJ v ≤ f := by
            have he : sizeJF (.cons k v (.cons k2 v2 u))
                = 1 + sizeJ v + sizeJF (.cons k2 v2 u) := rfl
            have := sizeJF_pos (.cons k2 v2 u)
            omega
          have hst : sizeJF (.cons k2 v2 u) ≤ f := by
            have he : sizeJF (.cons k v (.cons k2 v2 u))
                = 1 + sizeJ v + sizeJF (.cons k2 v2 u) := rfl
            have := sizeJ_pos v
            omega
          have h0 : skipWs (prettyFields ind (.cons k v (.cons k2 v2 u))
                ++ '\n' :: (spacesIndent ind ++ '}' :: rest))
              = '"' :: (escapeJsonChars k.data
                  ++ '"' :: ':' :: ' ' :: (prettyAt (ind + 2) v
                    ++ ',' :: '\n' :: (prettyFields ind (.cons k2 v2 u)
                      ++ '\n' :: (spacesIndent ind ++ '}' :: rest)))) := by
            rw [hcs, skipWs_spaces, skipWs_cons_not_ws _ _ (by decide)]
          have h1 : parseStrBody (escapeJsonChars k.data
                ++ '"' :: (':' :: ' ' :: (prettyAt (ind + 2) v
                  ++ ',' :: '\n' :: (prettyFields ind (.cons k2 v2 u)
                    ++ '\n' :: (spacesIndent ind ++ '}' :: rest)))))
              = some (k.data, ':' :: ' ' :: (prettyAt (ind + 2) v
                  ++ ',' :: '\n' :: (prettyFields ind (.cons k2 v2 u)
                    ++ '\n' :: (spacesIndent ind ++ '}' :: rest)))) :=
            parseStrBody_escape k.data _
          have h2 : skipWs (':' :: ' ' :: (prettyAt (ind + 2) v
                ++ ',' :: '\n' :: (prettyFields ind (.cons k2 v2 u)
                  ++ '\n' :: (spacesIndent ind ++ '}' :: rest))))
              = ':' :: (' ' :: (prettyAt (ind + 2) v
                  ++ ',' :: '\n' :: (prettyFields ind (.cons k2 v2 u)
                    ++ '\n' :: (spacesIndent ind ++ '}' :: rest)))) :=
            skipWs_cons_not_ws _ _ (by decide)
          have h3 : parseVal f (' ' :: (prettyAt (ind + 2) v
                ++ ',' :: '\n' :: (prettyFields ind (.cons k2 v2 u)
                  ++ '\n' :: (spacesIndent ind ++ '}' :: rest))))
              = some (v, ',' :: '\n' :: (prettyFields ind (.cons k2 v2 u)
                  ++ '\n' :: (spacesIndent ind ++ '}' :: rest))) := by
            rw [parseVal_ws_cons _ _ _ (by decide)]
            exact ihV v (ind + 2) _ hsv (headNotDigit_cons _ (by decide))
          rw [parseMembers_step f _ _ _ _ k.data v _ h0 h1 h2 h3,
            skipWs_cons_not_ws _ _ (by decide)]
          rw [if_pos (show (',' :: '\n' :: (prettyFields ind (.cons k2 v2 u)
              ++ '\n' :: (spacesIndent ind ++ '}' :: rest))).head? = some ','
            from rfl)]
          rw [show (',' :: '\n' :: (prettyFields ind (.cons k2 v2 u)
                ++ '\n' :: (spacesIndent ind ++ '}' :: rest))).tail
              = '\n' :: (prettyFields ind (.cons k2 v2 u)
                  ++ '\n' :: (spacesIndent ind ++ '}' :: rest)) from rfl]
          rw [parseMembers_ws_cons _ _ _ (by decide),
            ihF (.cons k2 v2 u) ind rest (fun h => JsonFields.noConfusion h) hst]
          rfl

mutual

theorem sizeJ_le_prettyAt : ∀ (ind : Nat) (j : Json), sizeJ j ≤ (prettyAt ind j).length
  | ind, .null => by
    rw [show sizeJ .null = 1 from rfl,
      show prettyAt ind .null = ['n', 'u', 'l', 'l'] from rfl]
    simp
  | ind, .bool true => by
    rw [show sizeJ (.bool true) = 1 from rfl,
      show prettyAt ind (.bool true) = ['t', 'r', 'u', 'e'] from rfl]
    simp
  | ind, .bool false => by
    rw [show sizeJ (.bool false) = 1 from rfl,
      show prettyAt ind (.bool false) = ['f', 'a', 'l', 's', 'e'] from rfl]
    simp
  | ind, .num n => by
    rw [show sizeJ (.num n) = 1 from rfl,
      show prettyAt ind (.num n) = intToChars n from rfl]
    by_cases h : n < 0
    · rw [show intToChars n = '-' :: natToChars n.natAbs from by simp [intToChars, h]]
      simp only [List.length_cons]
      omega
    · rw [show intToChars n = natToChars n.toNat from by simp [intToChars, h]]
      have := List.length_pos.mpr (natToChars_ne_nil n.toNat)
      omega
  | ind, .str s => by
    rw [show sizeJ (.str s) = 1 from rfl,
      show prettyAt ind (.str s) = '"' :: (escapeJsonChars s.data ++ ['"']) from rfl]
    simp only [List.length_cons]
    omega
  | ind, .arr .nil => by
    rw [show sizeJ (.arr .nil) = 1 + sizeJL .nil from rfl,
      show sizeJL JsonList.nil = 1 from rfl,
      show prettyAt ind (.arr .nil) = ['[', ']'] from rfl]
    simp
  | ind, .arr (.cons x t) => by
    rw [show sizeJ (.arr (.cons x t)) = 1 + sizeJL (.cons x t) from rfl,
      show prettyAt ind (.arr (.cons x t))
        = '[' :: '\n' :: (prettyItems ind (.cons x t)
            ++ '\n' :: (spacesIndent ind ++ [']'])) from rfl]
    have h := sizeJL_le_prettyItems ind (.cons x t)
    simp only [List.length_cons, List.length_append, spacesIndent, List.length_replicate]
    omega
  | ind, .obj .nil => by
    rw [show sizeJ (.obj .nil) = 1 + sizeJF .nil from rfl,
      show sizeJF JsonFields.nil = 1 from rfl,
      show prettyAt ind (.obj .nil) = ['{', '}'] from rfl]
    simp
  | ind, .obj (.cons k v t) => by
    rw [show sizeJ (.obj (.cons k v t)) = 1 + sizeJF (.cons k v t) from rfl,
      show prettyAt ind (.obj (.cons k v t))
        = '{' :: '\n' :: (prettyFields ind (.cons k v t)
            ++ '\n' :: (spacesIndent ind ++ ['}'])) from rfl]
    have h := sizeJF_le_prettyFields ind (.cons k v t)
    simp only [List.length_cons, List.length_append, spacesIndent, List.length_replicate]
    omega

theorem sizeJL_le_prettyItems : ∀ (ind : Nat) (xs : JsonList),
    sizeJL xs ≤ (prettyItems ind xs).length + 1
  | ind, .nil => by
    rw [show sizeJL JsonList.nil = 1 from rfl]
    omega
  | ind, .cons x .nil => by
    rw [show sizeJL (.cons x .nil) = 1 + sizeJ x + sizeJL JsonList.nil from rfl,
      show sizeJL JsonList.nil = 1 from rfl,
      show prettyItems ind (.cons x .nil)
        = spacesIndent (ind + 2) ++ prettyAt (ind + 2) x from rfl]
    have h := sizeJ_le_prettyAt (ind + 2) x
    simp only [List.length_append, spacesIndent, List.length_replicate]
    omega
  | ind, .cons x (.cons y u) => by
    rw [show sizeJL (.cons x (.cons y u)) = 1 + sizeJ x + sizeJL (.cons y u) from rfl,
      show prettyItems ind (.cons x (.cons y u))
        = (spacesIndent (ind + 2) ++ prettyAt (ind + 2) x)
            ++ ',' :: '\n' :: prettyItems ind (.cons y u) from rfl]
    have h1 := sizeJ_le_prettyAt (ind + 2) x
    have h2 := sizeJL_le_prettyItems ind (.cons y u)
    simp only [List.length_append, List.length_cons, spacesIndent, List.length_replicate]
    omega

theorem sizeJF_le_prettyFields : ∀ (ind : Nat) (fs : JsonFields),
    sizeJF fs ≤ (prettyFields ind fs).length + 1
  | ind, .nil => by
    rw [show sizeJF JsonFields.nil = 1 from rfl]
    omega
  | ind, .cons k v .nil => by
    rw [show sizeJF (.cons k v .nil) = 1 + sizeJ v + sizeJF JsonFields.nil from rfl,
      show sizeJF JsonFields.nil = 1 from rfl,
      show prettyFields ind (.cons k v .nil)
        = spacesIndent (ind + 2) ++ ('"' :: (escapeJsonChars k.data
            ++ '"' :: ':' :: ' ' :: prettyAt (ind + 2) v)) from rfl]
    have h := sizeJ_le_prettyAt (ind + 2) v
    simp only [List.length_append, List.length_cons, spacesIndent, List.length_replicate]
    omega
  | ind, .cons k v (.cons k2 v2 u) => by
    rw [show sizeJF (.cons k v (.cons k2 v2 u))
        = 1 + sizeJ v + sizeJF (.cons k2 v2 u) from rfl,
      show prettyFields ind (.cons k v (.cons k2 v2 u))
        = (spacesIndent (ind + 2) ++ ('"' :: (escapeJsonChars k.data
            ++ '"' :: ':' :: ' ' :: prettyAt (ind + 2) v)))
            ++ ',' :: '\n' :: prettyFields ind (.cons k2 v2 u) from rfl]
    have h1 := sizeJ_le_prettyAt (ind + 2) v
    have h2 := sizeJF_le_prettyFields ind (.cons k2 v2 u)
    simp only [List.length_append, List.length_cons, spacesIndent, List.length_replicate]
    omega

end

theorem parseDoc_prettyPrint (j : Json) :
    parseDoc (write_to_file_output j) = some j := by
  have hfuel : sizeJ j ≤ (prettyAt 0 j).length + 1 := by
    have := sizeJ_le_prettyAt 0 j
    omega
  have hV := (parse_pretty_roundtrip ((prettyAt 0 j).length + 1)).1 j 0 []
    hfuel (fun c hc => by cases hc)
  rw [List.append_nil] at hV
  have hdata : (write_to_file_output j).data = prettyAt 0 j := rfl
  unfold parseDoc
  rw [hdata, hV]
  rfl

/-- Claim C8, counterexample: the claim's frame property quantifies over
every `update_dependency_version` call, but for the name `"b~1c"` — legal in
npm, present in neither mapping (the runtime mapping holds only `"b/c"`) —
the call rewrites the untargeted leaf `"b/c"`, because the code escapes only
`'/'` while the pointer lookup unescapes `~1` back to `'/'`. -/
theorem update_rewrites_untargeted_leaf_cex :
    objGet (JsonFields.cons "b/c" (.str "1.0.0") .nil) "b~1c" = none
    ∧ update_dependency_version
        (.obj (.cons "dependencies" (.obj (.cons "b/c" (.str "1.0.0") .nil)) .nil))
        "b~1c" "2.0.0" none
      = .obj (.cons "dependencies" (.obj (.cons "b/c" (.str "2.0.0") .nil)) .nil) :=
  ⟨rfl, by decide⟩

/-- **C8** (amended). Round-trip and frame effect of the manifest pipeline.
Load (`parseDoc`, i.e. `serde_json::from_str`) followed by write
(`write_to_file_output`, i.e. `serde_json::to_string_pretty`) with zero
mutations re-loads to an identical structure, for every document. And every
`update_dependency_version` call whose name is free of the literal pointer
escape sequences `~0`/`~1` rewrites exactly the targeted leaf — in the
runtime `dependencies` mapping when the name is present there, else in the
`devDependencies` mapping: the top-level key list and the touched mapping's
key list are unchanged (no insertion, removal or reordering), every other
key of both levels keeps its value, so unknown/unmodeled manifest fields
round-trip unchanged through load→mutate→write. (For a name containing a
literal `~1`/`~0` an untargeted leaf can be rewritten instead; see the
counterexample.) -/
theorem roundtrip_and_update_frame :
    (∀ j : Json, parseDoc (write_to_file_output j) = some j)
    ∧ ∀ (fields : JsonFields) (name version : String) (rs : Option Char)
        (old : Json),
        hasPair '~' '0' name.data = false →
        hasPair '~' '1' name.data = false →
        ((∀ deps : JsonFields,
          objGet fields "dependencies" = some (Json.obj deps) →
          objGet deps name = some old →
          update_dependency_version (Json.obj fields) name version rs
              = Json.obj (objSet fields "dependencies"
                  (Json.obj (objSet deps name (Json.str (rangeConcat rs version)))))
            ∧ objKeys (objSet fields "dependencies"
                  (Json.obj (objSet deps name (Json.str (rangeConcat rs version)))))
                = objKeys fields
            ∧ objKeys (objSet deps name (Json.str (rangeConcat rs version)))
                = objKeys deps
            ∧ objGet (objSet deps name (Json.str (rangeConcat rs version))) name
                = some (Json.str (rangeConcat rs version))
            ∧ (∀ k2, k2 ≠ name →
                objGet (objSet deps name (Json.str (rangeConcat rs version))) k2
                  = objGet deps k2)
            ∧ (∀ k2, k2 ≠ "dependencies" →
                objGet (objSet fields "dependencies"
                    (Json.obj (objSet deps name (Json.str (rangeConcat rs version)))))
                    k2
                  = objGet fields k2))
        ∧ (∀ dev : JsonFields,
          (∀ g, objGet fields "dependencies" = some (Json.obj g) →
            objGet g name = none) →
          (∀ xs, objGet fields "dependencies" ≠ some (Json.arr xs)) →
          objGet fields "devDependencies" = some (Json.obj dev) →
          objGet dev name = some old →
          update_dependency_version (Json.obj fields) name version rs
              = Json.obj (objSet fields "devDependencies"
                  (Json.obj (objSet dev name (Json.str (rangeConcat rs version)))))
            ∧ objKeys (objSet fields "devDependencies"
                  (Json.obj (objSet dev name (Json.str (rangeConcat rs version)))))
                = objKeys fields
            ∧ objKeys (objSet dev name (Json.str (rangeConcat rs version)))
                = objKeys dev
            ∧ objGet (objSet dev name (Json.str (rangeConcat rs version))) name
                = some (Json.str (rangeConcat rs version))
            ∧ (∀ k2, k2 ≠ name →
                objGet (objSet dev name (Json.str (rangeConcat rs version))) k2
                  = objGet dev k2)
            ∧ (∀ k2, k2 ≠ "devDependencies" →
                objGet (objSet fields "devDependencies"
                    (Json.obj (objSet dev name (Json.str (rangeConcat rs version)))))
                    k2
                  = objGet fields k2))) := by
  constructor
  · exact parseDoc_prettyPrint
  · intro fields name version rs old h0 h1
    constructor
    · intro deps hdeps hold
      refine ⟨update_found_runtime fields deps name version rs old h0 h1 hdeps hold,
        objKeys_objSet fields "dependencies" _,
        objKeys_objSet deps name _,
        objGet_objSet_self deps name _ old hold,
        fun k2 hk2 => objGet_objSet_ne deps name k2 _ hk2,
        fun k2 hk2 => objGet_objSet_ne fields "dependencies" k2 _ hk2⟩
    · intro dev hm ha hdev hold
      refine ⟨update_found_dev fields dev name version rs old h0 h1 hm ha hdev hold,
        objKeys_objSet fields "devDependencies" _,
        objKeys_objSet dev name _,
        objGet_objSet_self dev name _ old hold,
        fun k2 hk2 => objGet_objSet_ne dev name k2 _ hk2,
        fun k2 hk2 => objGet_objSet_ne fields "devDependencies" k2 _ hk2⟩

/-- Witness for C8 at concrete manifests: an untouched document with the
unmodeled field `"name": "p"` round-trips through print-then-parse; updating
`a` (present in `dependencies`) to `^2.0.0` rewrites exactly that leaf; and
updating `d` (present only in `devDependencies`) rewrites exactly the dev
leaf, with the runtime mapping untouched. -/
theorem roundtrip_and_update_frame_witness :
    parseDoc (write_to_file_output
        (Json.obj (JsonFields.cons "name" (Json.str "p") JsonFields.nil)))
      = some (Json.obj (JsonFields.cons "name" (Json.str "p") JsonFields.nil))
    ∧ update_dependency_version
        (Json.obj (JsonFields.cons "dependencies"
          (Json.obj (JsonFields.cons "a" (Json.str "1.0.0") JsonFields.nil))
          (JsonFields.cons "name" (Json.str "p") JsonFields.nil)))
        "a" "2.0.0" (some '^')
      = Json.obj (JsonFields.cons "dependencies"
          (Json.obj (JsonFields.cons "a" (Json.str "^2.0.0") JsonFields.nil))
          (JsonFields.cons "name" (Json.str "p") JsonFields.nil))
    ∧ update_dependency_version
        (Json.obj (JsonFields.cons "dependencies"
          (Json.obj (JsonFields.cons "a" (Json.str "1.0.0") JsonFields.nil))
          (JsonFields.cons "devDependencies"
            (Json.obj (JsonFields.cons "d" (Json.str "1.0.0") JsonFields.nil))
            JsonFields.nil)))
        "d" "2.0.0" none
      = Json.obj (JsonFields.cons "dependencies"
          (Json.obj (JsonFields.cons "a" (Json.str "1.0.0") JsonFields.nil))
          (JsonFields.cons "devDependencies"
            (Json.obj (JsonFields.cons "d" (Json.str "2.0.0") JsonFields.nil))
            JsonFields.nil)) := by
  refine ⟨roundtrip_and_update_frame.1 _, ?_, ?_⟩
  · have h := (roundtrip_and_update_frame.2
      (JsonFields.cons "dependencies"
        (Json.obj (JsonFields.cons "a" (Json.str "1.0.0") JsonFields.nil))
        (JsonFields.cons "name" (Json.str "p") JsonFields.nil))
      "a" "2.0.0" (some '^') (Json.str "1.0.0")
      (by decide) (by decide)).1
      (JsonFields.cons "a" (Json.str "1.0.0") JsonFields.nil) rfl rfl
    rw [h.1]
    rfl
  · have h := (roundtrip_and_update_frame.2
      (JsonFields.cons "dependencies"
        (Json.obj (JsonFields.cons "a" (Json.str "1.0.0") JsonFields.nil))
        (JsonFields.cons "devDependencies"
          (Json.obj (JsonFields.cons "d" (Json.str "1.0.0") JsonFields.nil))
          JsonFields.nil))
      "d" "2.0.0" none (Json.str "1.0.0")
      (by decide) (by decide)).2
      (JsonFields.cons "d" (Json.str "1.0.0") JsonFields.nil)
      (by intro g hg; cases hg; decide) (by intro xs hg; cases hg) rfl rfl
    rw [h.1]
    rfl
